import Mathlib

/- Verification development for the FlowSync workflow engine.

The definitions below are shallow embeddings of the TypeScript source:
JavaScript numbers are modelled as an inductive with explicit NaN and
infinities over rationals, JSON values as an inductive JSValue, database
tables as lists of rows, in-memory maps as functions into Option, and
clock reads (Date.now) as explicit Nat parameters. -/

set_option maxRecDepth 4000

namespace FlowSync

/- ═══════════════════ JavaScript value model ═══════════════════ -/

/-- A JavaScript number: NaN, the two infinities, or a finite value
(modelled as a rational; the source only relies on ordering and
equality, never on binary64 rounding). -/
inductive JSNumber where
  | nan
  | posInf
  | negInf
  | fin (q : ℚ)
deriving DecidableEq

/-- A JSON-like JavaScript value as handled by the workers:
undefined, null, booleans, numbers, strings, and plain objects. -/
inductive JSValue where
  | undef
  | null
  | bool (b : Bool)
  | num (n : JSNumber)
  | str (s : String)
  | obj (fields : List (String × JSValue))

/-- s.split(sep) for a one-character separator. -/
def splitCharAux (sep : Char) : List Char → List Char → List String
  | [], acc => [⟨acc.reverse⟩]
  | c :: rest, acc =>
    if c = sep then ⟨acc.reverse⟩ :: splitCharAux sep rest []
    else splitCharAux sep rest (c :: acc)

/-- s.split(sep) for a one-character separator. -/
def strSplitOnChar (s : String) (sep : Char) : List String :=
  splitCharAux sep s.toList []

/-- s.startsWith(p). -/
def strStartsWith (s p : String) : Bool :=
  p.toList.isPrefixOf s.toList

/-- s.trim(). -/
def strTrim (s : String) : String :=
  ⟨((s.toList.dropWhile Char.isWhitespace).reverse.dropWhile Char.isWhitespace).reverse⟩

/-- s.includes(c) for one character. -/
def strContainsChar (s : String) (c : Char) : Bool :=
  s.toList.contains c

/-- The whitespace split used by parseCron (split on one-or-more
whitespace, modelled as split on each whitespace character followed by
dropping empty fragments at the use site). -/
def splitWsAux : List Char → List Char → List String
  | [], acc => [⟨acc.reverse⟩]
  | c :: rest, acc =>
    if c.isWhitespace then ⟨acc.reverse⟩ :: splitWsAux rest []
    else splitWsAux rest (c :: acc)

/-- The whitespace-separated fragments of a string. -/
def strFields (s : String) : List String :=
  (splitWsAux s.toList []).filter (fun p => p ≠ "")

/-- Ascending insertion into a sorted list. -/
def insertAsc (x : Int) : List Int → List Int
  | [] => [x]
  | y :: ys => if x ≤ y then x :: y :: ys else y :: insertAsc x ys

/-- Ascending sort on Int values (the numeric Array.sort of the
source; only the sorted result is observable). -/
def sortInts (l : List Int) : List Int :=
  l.foldr insertAsc []

/-- Parse the digit characters of a string as a natural number;
none when a non-digit is present or the string is empty. -/
def digitsToNat : List Char → Option Nat
  | [] => none
  | cs =>
    cs.foldl (fun acc c =>
      match acc with
      | none => none
      | some n => if c.isDigit then some (n * 10 + (c.toNat - 48)) else none) (some 0)

/-- The numeric value of one digit character in the given base; none
when the character is not a digit of that base. -/
def digitVal (base : Nat) (c : Char) : Option Nat :=
  let v :=
    if c.isDigit then some (c.toNat - 48)
    else if 'a' ≤ c ∧ c ≤ 'f' then some (c.toNat - 87)
    else if 'A' ≤ c ∧ c ≤ 'F' then some (c.toNat - 55)
    else none
  match v with
  | some d => if d < base then some d else none
  | none => none

/-- The digits of a numeric literal in the given base; none on an empty
list or an invalid digit. -/
def digitsToNatBase (base : Nat) : List Char → Option Nat
  | [] => none
  | cs =>
    cs.foldl (fun acc c =>
      match acc with
      | none => none
      | some n =>
        match digitVal base c with
        | some d => some (n * base + d)
        | none => none) (some 0)

/-- Split a numeric literal at its first exponent marker (e or E);
none when no marker occurs. -/
def splitExpAux : List Char → List Char → Option (List Char × List Char)
  | [], _ => none
  | c :: rest, acc =>
    if c = 'e' ∨ c = 'E' then some (acc.reverse, rest)
    else splitExpAux rest (c :: acc)

/-- The signed decimal exponent of a literal; none when empty or
malformed. -/
def parseExpPart : List Char → Option Int
  | '-' :: ds => (digitsToNat ds).map (fun n => -(n : Int))
  | '+' :: ds => (digitsToNat ds).map (fun n => (n : Int))
  | ds => (digitsToNat ds).map (fun n => (n : Int))

/-- The unsigned decimal significand of a Number() literal: integral
digits, a dot with fractional digits, or both (at least one side
nonempty, so "5.", ".5" and "1.5" are all accepted and "." is not). -/
def decMantissa (cs : List Char) : Option ℚ :=
  match splitCharAux '.' cs [] with
  | [ip] => (digitsToNat ip.toList).map (fun n => (n : ℚ))
  | [ip, fp] =>
    if ip = "" ∧ fp = "" then none
    else
      let ipv := if ip = "" then some 0 else digitsToNat ip.toList
      let fpv :=
        if fp = "" then some (0 : ℚ)
        else (digitsToNat fp.toList).map (fun f => (f : ℚ) / ((10 : ℚ) ^ fp.toList.length))
      match ipv, fpv with
      | some n, some f => some ((n : ℚ) + f)
      | _, _ => none
  | _ => none

/-- Number(s) on a string: empty or whitespace-only converts to 0, the
Infinity spellings to the infinities, unsigned hex, octal and binary
literals (0x / 0o / 0b prefixes) to their value, and signed decimal
literals - integral digits, optional fraction, optional e / E exponent -
to their exact rational value; anything else to NaN. Values beyond the
binary64 range stay finite rationals here: the model idealises away
rounding and overflow, never the NaN set. -/
def strToNumber (s : String) : JSNumber :=
  let t := strTrim s
  if t = "" then .fin 0
  else if t = "Infinity" || t = "+Infinity" then .posInf
  else if t = "-Infinity" then .negInf
  else if strStartsWith t "0x" || strStartsWith t "0X" then
    match digitsToNatBase 16 (t.drop 2).toList with
    | some n => .fin (n : ℚ)
    | none => .nan
  else if strStartsWith t "0o" || strStartsWith t "0O" then
    match digitsToNatBase 8 (t.drop 2).toList with
    | some n => .fin (n : ℚ)
    | none => .nan
  else if strStartsWith t "0b" || strStartsWith t "0B" then
    match digitsToNatBase 2 (t.drop 2).toList with
    | some n => .fin (n : ℚ)
    | none => .nan
  else
    let (neg, body) :=
      if strStartsWith t "-" then (true, t.drop 1)
      else if strStartsWith t "+" then (false, t.drop 1) else (false, t)
    let mant : Option ℚ :=
      match splitExpAux body.toList [] with
      | none => decMantissa body.toList
      | some (m, e) =>
        match decMantissa m, parseExpPart e with
        | some q, some ex => some (q * (10 : ℚ) ^ ex)
        | _, _ => none
    match mant with
    | some q => .fin (if neg then -q else q)
    | none => .nan

/-- Boolean(v): JS truthiness. -/
def jsToBool : JSValue → Bool
  | .undef => false
  | .null => false
  | .bool b => b
  | .num .nan => false
  | .num (.fin q) => decide (q ≠ 0)
  | .num _ => true
  | .str s => decide (s ≠ "")
  | .obj _ => true

/-- Property access v[field] as used by the result traversals: objects
look the field up, every other shape yields undefined. -/
def getField (v : JSValue) (field : String) : JSValue :=
  match v with
  | .obj fields =>
    match fields.lookup field with
    | some w => w
    | none => .undef
  | _ => JSValue.undef -- any non-object field access yields undefined

end FlowSync

namespace FlowSync

/- ═══════════════════ Condition handler (src/lib/workers/handlers/condition-handler.ts) ═══════════════════ -/

namespace ConditionHandler

end ConditionHandler

/- ═══════════════════ Idempotency store (src/lib/queue/idempotency.ts) ═══════════════════ -/

namespace Idempotency

/-- Default TTL of an idempotency entry (5 minutes, in ms). -/
def DEFAULT_TTL_MS : Nat := 5 * 60 * 1000

/-- One stored entry: the step id and its absolute expiry instant. -/
structure IdemEntry where
  stepId : String
  expiresAt : Nat
deriving DecidableEq

/-- The in-memory map backing the store. -/
def Store : Type := String → Option IdemEntry

/-- Result shape of checkAndSet. -/
structure CheckResult where
  duplicate : Bool
  existingStepId : Option String
deriving DecidableEq

/-- Embeds IdempotencyStore.checkAndSet: a live entry (strictly later
expiry than now) reports a duplicate with the stored step id; otherwise
a fresh entry with expiry now + ttl is stored and no duplicate is
reported. Date.now() is the explicit now argument. -/
def checkAndSet (store : Store) (key stepId : String) (ttlMs now : Nat) :
    CheckResult × Store :=
  match store key with
  | some existing =>
    if existing.expiresAt > now then
      (⟨true, some existing.stepId⟩, store)
    else
      (⟨false, none⟩, fun k => if k = key then some ⟨stepId, now + ttlMs⟩ else store k)
  | none =>
    (⟨false, none⟩, fun k => if k = key then some ⟨stepId, now + ttlMs⟩ else store k)

/-- Embeds IdempotencyStore.remove. -/
def remove (store : Store) (key : String) : Store :=
  fun k => if k = key then none else store k

/-- Embeds IdempotencyStore.cleanup: the periodic sweep dropping every
entry whose expiry is at or before now. -/
def cleanup (store : Store) (now : Nat) : Store :=
  fun k =>
    match store k with
    | some entry => if entry.expiresAt ≤ now then none else some entry
    | none => none

/-- Embeds IdempotencyStore.generateKey. -/
def generateKey (executionId nodeId : String) : String :=
  executionId ++ ":" ++ nodeId

end Idempotency

/- ═══════════════════ Backpressure controller (BackpressureController.canAccept) ═══════════════════ -/

namespace Backpressure

/-- The three thresholds of the controller. -/
structure BackpressureConfig where
  maxQueueDepth : Nat
  highWaterMark : Nat
  lowWaterMark : Nat
deriving DecidableEq

/-- Defaults from the source: 1000 / 800 / 200. -/
def DEFAULT_CONFIG : BackpressureConfig :=
  { maxQueueDepth := 1000, highWaterMark := 800, lowWaterMark := 200 }

/-- The sticky state of the controller. -/
inductive BackpressureState where
  | accepting | pressured | rejecting
deriving DecidableEq

/-- Embeds BackpressureController.canAccept: the returned flag and the
state after observing the given live queue depth. At or above
maxQueueDepth the call rejects; at or above highWaterMark it accepts
while moving to pressured; at or below lowWaterMark it resumes
accepting; strictly between the two water marks the state is kept. -/
def canAccept (cfg : BackpressureConfig) (s : BackpressureState) (depth : Nat) :
    Bool × BackpressureState :=
  if depth ≥ cfg.maxQueueDepth then (false, .rejecting)
  else if depth ≥ cfg.highWaterMark then (true, .pressured)
  else if depth ≤ cfg.lowWaterMark then (true, .accepting)
  else (true, s)

/-- The state after a sequence of canAccept calls observing the given
depths in order. -/
def runCalls (cfg : BackpressureConfig) (s : BackpressureState) (depths : List Nat) :
    BackpressureState :=
  depths.foldl (fun st d => (canAccept cfg st d).2) s

end Backpressure

end FlowSync

namespace FlowSync

/- ═══════════════════ Cron parser (parseCron / shouldRun / getNextRunTime) ═══════════════════ -/

namespace Cron

/-- parseInt(s, 10): trims, reads an optional sign and then the leading
run of digits, ignoring any trailing garbage; none models NaN. -/
def parseIntJS (s : String) : Option Int :=
  let t := strTrim s
  let (neg, body) :=
    if strStartsWith t "-" then (true, t.drop 1)
    else if strStartsWith t "+" then (false, t.drop 1) else (false, t)
  let digits := body.toList.takeWhile Char.isDigit
  if digits.isEmpty then none
  else
    let n : Nat := digits.foldl (fun acc c => acc * 10 + (c.toNat - 48)) 0
    some (if neg then -(n : Int) else (n : Int))

/-- Number(s) restricted to integers, as applied to the bounds of a
stepped range; a non-integer numeric literal is treated as NaN (none),
which only makes the range empty exactly as NaN bounds do. -/
def numberInt (s : String) : Option Int :=
  match strToNumber s with
  | .fin q => if q.den = 1 then some q.num else none
  | _ => none

/-- The ascending values start, start+step, ... up to stop; empty when a
bound is NaN, mirroring the JS for-loop over possibly NaN bounds. -/
def rangeValues (start stop : Option Int) (step : Nat) : List Int :=
  match start, stop with
  | some a, some b =>
    if a > b then []
    else (List.range ((b - a).toNat / step + 1)).map (fun i => a + (step : Int) * (i : Int))
  | _, _ => []

/-- Parsed representation of one comma-separated part of a cron field. -/
def parsePart (part : String) (min max : Nat) : Except String (List Int) :=
  if strContainsChar part '/' then
    let pieces := strSplitOnChar part '/'
    let range := pieces.headD ""
    let stepStr := (pieces.drop 1).headD ""
    match parseIntJS stepStr with
    | none => .error ("Invalid step: " ++ stepStr)
    | some st =>
      if st ≤ 0 then .error ("Invalid step: " ++ stepStr)
      else
        let (start, stop) :=
          if range = "*" then (some (min : Int), some (max : Int))
          else if strContainsChar range '-' then
            let bounds := (strSplitOnChar range '-').map numberInt
            ((bounds.headD none), ((bounds.drop 1).headD none))
          else (parseIntJS range, some (max : Int))
        .ok (rangeValues start stop st.toNat)
  else if strContainsChar part '-' then
    let bounds := strSplitOnChar part '-'
    .ok (rangeValues (parseIntJS (bounds.headD "")) (parseIntJS ((bounds.drop 1).headD "")) 1)
  else if part = "*" then
    .ok (rangeValues (some (min : Int)) (some (max : Int)) 1)
  else
    match parseIntJS part with
    | some v =>
      if (min : Int) ≤ v ∧ v ≤ (max : Int) then .ok [v]
      else .error ("Invalid cron value: " ++ part)
    | none => .error ("Invalid cron value: " ++ part)

/-- Embeds parseField: union of the comma-separated parts, deduplicated
and sorted ascending (the JS Set plus numeric sort). -/
def parseField (field : String) (min max : Nat) : Except String (List Int) :=
  let parts := strSplitOnChar field ','
  let gathered : Except String (List Int) :=
    parts.foldl (fun acc part => do
      let vs ← acc
      let new ← parsePart part min max
      pure (vs ++ new)) (.ok [])
  match gathered with
  | .error e => .error e
  | .ok vs => .ok (sortInts vs.dedup)

/-- The five parsed cron fields. -/
structure CronFields where
  minute : List Int
  hour : List Int
  dayOfMonth : List Int
  month : List Int
  dayOfWeek : List Int
deriving DecidableEq

/-- Embeds parseCron: whitespace-split into exactly five fields with the
standard ranges (dayOfWeek 0 = Sunday). -/
def parseCron (expression : String) : Except String CronFields := do
  let parts := strFields expression
  if h : parts.length = 5 then
    let minute ← parseField parts[0] 0 59
    let hour ← parseField parts[1] 0 23
    let dayOfMonth ← parseField parts[2] 1 31
    let month ← parseField parts[3] 1 12
    let dayOfWeek ← parseField parts[4] 0 6
    pure ⟨minute, hour, dayOfMonth, month, dayOfWeek⟩
  else .error "Invalid cron expression: expected 5 fields"

/-- A civil timestamp at minute resolution, carrying the observations
the source reads off a JS Date: getMinutes, getHours, getDate,
getMonth() + 1 and getDay (0 = Sunday). Seconds are zeroed by the
source before searching and are not modelled. -/
structure DateT where
  year : Nat
  month : Nat
  day : Nat
  hour : Nat
  minute : Nat
  weekday : Nat
deriving DecidableEq

/-- Gregorian leap-year rule, as implemented by the JS Date rollover. -/
def isLeapYear (y : Nat) : Bool :=
  (y % 4 = 0 && y % 100 ≠ 0) || y % 400 = 0

/-- Days in a month of the proleptic Gregorian calendar. -/
def daysInMonth (y m : Nat) : Nat :=
  if m = 2 then (if isLeapYear y then 29 else 28)
  else if m = 4 ∨ m = 6 ∨ m = 9 ∨ m = 11 then 30
  else 31

/-- setMinutes(getMinutes() + 1): one minute forward with full calendar
rollover, keeping the weekday observation consistent. -/
def addMinute (d : DateT) : DateT :=
  if d.minute < 59 then { d with minute := d.minute + 1 }
  else if d.hour < 23 then { d with minute := 0, hour := d.hour + 1 }
  else
    let d' := { d with minute := 0, hour := 0, weekday := (d.weekday + 1) % 7 }
    if d.day < daysInMonth d.year d.month then { d' with day := d.day + 1 }
    else if d.month < 12 then { d' with day := 1, month := d.month + 1 }
    else { d' with day := 1, month := 1, year := d.year + 1 }

/-- The five-fold conjunction both shouldRun and getNextRunTime test. -/
def matchesFields (f : CronFields) (d : DateT) : Bool :=
  f.minute.contains (d.minute : Int)
    && f.hour.contains (d.hour : Int)
    && f.dayOfMonth.contains (d.day : Int)
    && f.month.contains (d.month : Int)
    && f.dayOfWeek.contains (d.weekday : Int)

/-- Embeds shouldRun: parse failure is caught and yields false. -/
def shouldRun (expression : String) (now : DateT) : Bool :=
  match parseCron expression with
  | .error _ => false
  | .ok fields => matchesFields fields now

/-- The minute-by-minute search loop of getNextRunTime. -/
def searchNext (fields : CronFields) : Nat → DateT → Option DateT
  | 0, _ => none
  | fuel + 1, candidate =>
    if matchesFields fields candidate then some candidate
    else searchNext fields fuel (addMinute candidate)

/-- Embeds getNextRunTime: start at the minute after the given instant
and scan up to 366 days of minutes; parse failure yields null. -/
def getNextRunTime (expression : String) (start : DateT) : Option DateT :=
  match parseCron expression with
  | .error _ => none
  | .ok fields => searchNext fields (366 * 24 * 60) (addMinute start)

end Cron

end FlowSync

namespace FlowSync

/- ═══════════════════ Workflow data model (src/lib/types.ts) ═══════════════════ -/

/-- The retry block of a node config (config.retry). -/
structure RetryConfig where
  maxRetries : Option Nat
  backoffMs : Option Nat
  backoffMultiplier : Option Nat
deriving DecidableEq

/-- The slice of the untyped node config record that the core engine
reads: the retry policy and the condition expression. -/
structure NodeConfig where
  retry : Option RetryConfig
  expression : Option String
deriving DecidableEq

/-- An empty config record. -/
def NodeConfig.emptyCfg : NodeConfig := ⟨none, none⟩

/-- A workflow node; the type is kept as a string, matching the string
comparisons performed by the source at runtime. -/
structure WorkflowNode where
  id : String
  type : String
  label : String
  config : NodeConfig
deriving DecidableEq

/-- A workflow edge with its optional condition branch label. -/
structure WorkflowEdge where
  id : String
  source : String
  target : String
  conditionBranch : Option String
deriving DecidableEq

/-- A workflow definition: the DAG. -/
structure WorkflowDefinition where
  nodes : List WorkflowNode
  edges : List WorkflowEdge
deriving DecidableEq

/- ═══════════════════ DAG validator (src/lib/dag-validator.ts, validateDAG) ═══════════════════ -/

namespace Validations

/-- Result shape of validateDAG. -/
structure ValidationResult where
  valid : Bool
  errors : List String
deriving DecidableEq

/-- The duplicate-detection loop over ids, carrying the set of ids seen
so far and emitting one message per repeated id. -/
def findDupErrors (msg : String) : List String → List String → List String
  | _, [] => []
  | seen, x :: rest =>
    if seen.contains x then (msg ++ x) :: findDupErrors msg (x :: seen) rest
    else findDupErrors msg (x :: seen) rest

/-- Start/end count errors. -/
def startEndErrors (nodes : List WorkflowNode) : List String :=
  let startCount := (nodes.filter (fun n => n.type = "start")).length
  let endCount := (nodes.filter (fun n => n.type = "end")).length
  (if startCount = 0 then ["Workflow must have exactly one start node"]
   else if startCount > 1 then ["Workflow must have exactly one start node, found several"]
   else [])
  ++ (if endCount = 0 then ["Workflow must have at least one end node"] else [])

/-- Edge endpoint existence errors, in edge order, source before target
(the edge loop of the source). -/
def edgeRefErrors (nodeIds : List String) : List WorkflowEdge → List String
  | [] => []
  | e :: rest =>
    (if nodeIds.contains e.source then []
     else ["Edge " ++ e.id ++ " references non-existent source node: " ++ e.source])
    ++ (if nodeIds.contains e.target then []
        else ["Edge " ++ e.id ++ " references non-existent target node: " ++ e.target])
    ++ edgeRefErrors nodeIds rest

/-- The adjacency map of the Kahn phase: source id to the list of edge
targets in edge order. -/
def buildAdjacency (edges : List WorkflowEdge) : String → List String :=
  edges.foldl (fun adj e => fun k => if k = e.source then adj k ++ [e.target] else adj k)
    (fun _ => [])

/-- The in-degree map of the Kahn phase (kept in Int: the source works
with JS numbers and a decrement below zero must not saturate). -/
def buildInDegree (edges : List WorkflowEdge) : String → Int :=
  edges.foldl (fun deg e => fun k => if k = e.target then deg k + 1 else deg k)
    (fun _ => 0)

/-- The inner Kahn loop over the neighbors of the node just peeled:
decrement each, enqueue a neighbor exactly when its degree reaches 0. -/
def processNeighbors : (String → Int) → List String → List String →
    ((String → Int) × List String)
  | deg, queue, [] => (deg, queue)
  | deg, queue, nb :: nbs =>
    let newDeg := deg nb - 1
    let deg' : String → Int := fun k => if k = nb then newDeg else deg k
    let queue' := if newDeg = 0 then queue ++ [nb] else queue
    processNeighbors deg' queue' nbs

/-- The outer Kahn loop. Unlike the source, which only counts peeled
nodes, this embedding records the peel order; the count of the source
is the length of the returned list. The fuel supplied by kahnOrder
covers every possible push, so the zero-fuel branch is unreachable. -/
def kahnLoop (adj : String → List String) :
    Nat → (String → Int) → List String → List String → List String
  | 0, _, _, order => order
  | _ + 1, _, [], order => order
  | fuel + 1, deg, current :: rest, order =>
    let step := processNeighbors deg rest (adj current)
    kahnLoop adj fuel step.1 step.2 (order ++ [current])

/-- The peel order computed by the Kahn phase of validateDAG. -/
def kahnOrder (D : WorkflowDefinition) : List String :=
  let adj := buildAdjacency D.edges
  let deg := buildInDegree D.edges
  let initialQueue := (D.nodes.map (fun n => n.id)).filter (fun i => deg i = 0)
  kahnLoop adj (D.nodes.length + D.edges.length + 1) deg initialQueue []

/-- The inner BFS loop over the neighbors of the node just dequeued:
every neighbor not yet reached is marked reached and enqueued. -/
def visitNeighbors : List String → List String → List String →
    (List String × List String)
  | reach, queue, [] => (reach, queue)
  | reach, queue, nb :: nbs =>
    if reach.contains nb then visitNeighbors reach queue nbs
    else visitNeighbors (reach ++ [nb]) (queue ++ [nb]) nbs

/-- The outer BFS loop of the reachability phase. -/
def bfsLoop (adj : String → List String) :
    Nat → List String → List String → List String
  | 0, reach, _ => reach
  | _ + 1, reach, [] => reach
  | fuel + 1, reach, current :: rest =>
    let step := visitNeighbors reach rest (adj current)
    bfsLoop adj fuel step.1 step.2

/-- The set of ids reached by BFS from the start node. -/
def bfsReachable (D : WorkflowDefinition) (startId : String) : List String :=
  bfsLoop (buildAdjacency D.edges) (D.nodes.length + D.edges.length + 1)
    [startId] [startId]

/-- Structural fork (at least 2 out-edges) and join (at least 2
in-edges) checks. -/
def forkJoinErrors (D : WorkflowDefinition) : List String :=
  D.nodes.flatMap (fun n =>
    (if n.type = "fork" ∧ ((D.edges.filter (fun e => e.source = n.id)).length < 2) then
      ["Fork node " ++ n.id ++ " must have at least 2 outgoing edges"] else [])
    ++ (if n.type = "join" ∧ ((D.edges.filter (fun e => e.target = n.id)).length < 2) then
      ["Join node " ++ n.id ++ " must have at least 2 incoming edges"] else []))

/-- The structural error block of validateDAG: duplicate node ids,
duplicate edge ids, start/end counts and edge endpoint existence, in
source order. When nonempty it short-circuits the later phases. -/
def structuralErrors (D : WorkflowDefinition) : List String :=
  findDupErrors "Duplicate node ID: " [] (D.nodes.map (fun n => n.id))
    ++ findDupErrors "Duplicate edge ID: " [] (D.edges.map (fun e => e.id))
    ++ startEndErrors D.nodes
    ++ edgeRefErrors (D.nodes.map (fun n => n.id)) D.edges

/-- The cycle error of the Kahn phase: present exactly when the peel
count falls short of the node count. -/
def cycleErrors (D : WorkflowDefinition) : List String :=
  if (kahnOrder D).length ≠ D.nodes.length then
    ["Workflow contains a cycle"] else []

/-- The reachability errors: computed only when exactly one start node
exists and no error was recorded so far (the structural block being
empty at this point, that means no cycle error). -/
def reachErrors (D : WorkflowDefinition) : List String :=
  match D.nodes.filter (fun n => n.type = "start") with
  | [s] =>
    if (cycleErrors D).isEmpty then
      D.nodes.filterMap (fun n =>
        if (bfsReachable D s.id).contains n.id then none
        else some ("Node " ++ n.id ++ " is not reachable from the start node"))
    else []
  | _ => []

/-- Embeds validateDAG: empty-node check, the structural block (which
returns early when nonempty), then cycle detection by Kahn peeling,
reachability by BFS from the unique start, and the fork/join arity
checks. The edges-missing check of the source cannot arise here
because the embedded definition always carries an edge list. -/
def validateDAG (D : WorkflowDefinition) : ValidationResult :=
  if D.nodes.isEmpty then ⟨false, ["Workflow must have at least one node"]⟩
  else if (structuralErrors D).isEmpty then
    let errors := cycleErrors D ++ reachErrors D ++ forkJoinErrors D
    ⟨errors.isEmpty, errors⟩
  else ⟨false, structuralErrors D⟩

/-- The count of edges into v from sources outside the processed set S:
the quantity the in-degree map of the Kahn loop tracks. -/
def cntOutside (edges : List WorkflowEdge) (S : List String) (v : String) : Nat :=
  (edges.filter (fun e => e.target = v ∧ e.source ∉ S)).length

/-- One directed step along an edge of the definition. -/
def EdgeStep (D : WorkflowDefinition) (a b : String) : Prop :=
  ∃ e ∈ D.edges, e.source = a ∧ e.target = b

/-- Graph reachability along the edges of the definition. -/
def ReachableFrom (D : WorkflowDefinition) (a b : String) : Prop :=
  Relation.ReflTransGen (EdgeStep D) a b

/-- A topological ordering of the definition: a permutation of the node
ids in which every edge goes from an earlier to a later position. -/
def IsTopoOrder (D : WorkflowDefinition) (ord : List String) : Prop :=
  ord.Perm (D.nodes.map (fun n => n.id))
    ∧ ∀ e ∈ D.edges, ord.indexOf e.source < ord.indexOf e.target

end Validations

end FlowSync

namespace FlowSync

/- ═══════════════════ Engine state model ═══════════════════ -/

/-- A StepExecution row. -/
structure StepExecution where
  id : String
  executionId : String
  nodeId : String
  nodeLabel : String
  nodeType : String
  status : String
  attempts : Nat
  result : Option JSValue
  error : Option String
  startedAt : Option Nat
  completedAt : Option Nat

/-- An Execution row. -/
structure ExecutionRow where
  id : String
  workflowId : String
  status : String
  input : Option JSValue
  output : Option JSValue
  userId : Option String
  completedAt : Option Nat

/-- A Workflow row (the fields the engine reads). -/
structure WorkflowRow where
  id : String
  name : String
  status : String
  definitionJson : WorkflowDefinition

/-- A WorkerJob as built by the publisher and consumed by the workers.
previousResults is the JS object as an association list. -/
structure WorkerJob where
  id : String
  executionId : String
  stepId : String
  node : WorkflowNode
  input : Option JSValue
  previousResults : List (String × JSValue)
  attempt : Nat
  maxRetries : Nat
  createdAt : Nat

/-- A WorkerResult as produced by a handler or synthesized by the
consumer. A missing retryable field is none (undefined). -/
structure WorkerResult where
  jobId : String
  stepId : String
  executionId : String
  status : String
  result : Option JSValue
  error : Option String
  durationMs : Nat
  retryable : Option Bool

/-- A JobQueue row. -/
structure JobRow where
  id : String
  executionId : String
  nodeId : String
  nodeLabel : String
  nodeType : String
  payload : WorkerJob
  status : String
  attempts : Nat
  maxAttempts : Nat
  lockedAt : Option Nat
  lockedBy : Option String
  result : Option JSValue
  error : Option String

/-- A dead-letter entry. -/
structure DLQEntry where
  job : WorkerJob
  error : String
  attempts : Nat

/-- A completion signal emitted on the executionEvents bus. -/
structure EventMsg where
  topic : String
  status : String
  error : Option String

/-- The whole engine state: the database tables, the in-process
singletons (idempotency store, backpressure controller, queue counters,
dead-letter sink), a fresh-id counter standing in for the DB id
generator, and logs of enqueued jobs and emitted events. -/
structure SysState where
  workflows : List WorkflowRow
  executions : List ExecutionRow
  steps : List StepExecution
  jobRows : List JobRow
  dlq : List DLQEntry
  idem : Idempotency.Store
  bpState : Backpressure.BackpressureState
  totalEnqueued : Nat
  totalProcessed : Nat
  totalFailed : Nat
  bpRejected : Nat
  nextId : Nat
  enqueuedLog : List WorkerJob
  events : List EventMsg

/-- The synchronous JobQueue.depth getter:
max(0, totalEnqueued - totalProcessed - totalFailed). -/
def SysState.depth (st : SysState) : Nat :=
  st.totalEnqueued - st.totalProcessed - st.totalFailed

/-- The DB-generated row id for the next created row. -/
def freshId (st : SysState) : String :=
  "id-" ++ toString st.nextId

/-- JS s || fallback on an optional string (both undefined and the
empty string yield the fallback). -/
def strOr (s : Option String) (fallback : String) : String :=
  match s with
  | some v => if v = "" then fallback else v
  | none => fallback

/- ═══════════════════ Job queue (class JobQueue, Phase 11) ═══════════════════ -/

/-- Embeds JobQueue.enqueue: inserts a pending row carrying the job as
payload, with attempts 0 and maxAttempts driven by the JS truthiness of
job.maxRetries, bumps the enqueued counter and emits the in-process job
notification (recorded in enqueuedLog). The DB-failure fallback branch
of the source is not modelled. -/
def enqueue (job : WorkerJob) (st : SysState) : SysState :=
  { st with
    jobRows := st.jobRows ++ [{
      id := job.id, executionId := job.executionId, nodeId := job.node.id,
      nodeLabel := job.node.label, nodeType := job.node.type, payload := job,
      status := "pending", attempts := 0,
      maxAttempts := if job.maxRetries ≠ 0 then job.maxRetries + 1 else 3,
      lockedAt := none, lockedBy := none, result := none, error := none }],
    totalEnqueued := st.totalEnqueued + 1,
    enqueuedLog := st.enqueuedLog ++ [job] }

/-- Embeds JobQueue.markDone (the missing-row case is ignored by the
source and leaves the table unchanged here too). -/
def markDone (jobId : String) (result : Option JSValue) (st : SysState) : SysState :=
  { st with
    totalProcessed := st.totalProcessed + 1,
    jobRows := st.jobRows.map (fun r =>
      if r.id = jobId then { r with status := "done", result := result } else r) }

/-- Embeds JobQueue.markFailed. -/
def markFailed (jobId : String) (error : Option String) (st : SysState) : SysState :=
  { st with
    totalFailed := st.totalFailed + 1,
    jobRows := st.jobRows.map (fun r =>
      if r.id = jobId then { r with status := "failed", error := some (strOr error "Unknown error") } else r) }

/- ═══════════════════ Job publisher (src/lib/queue/job-publisher.ts) ═══════════════════ -/

/-- Embeds getMaxRetries: config.retry.maxRetries with the default
retry policy value 0. -/
def getMaxRetries (node : WorkflowNode) : Nat :=
  match node.config.retry with
  | some r => r.maxRetries.getD 0
  | none => 0

/-- Embeds publishJob: create the StepExecution row in pending, register
the idempotency key (returning the existing step id and deleting the
fresh row on a duplicate), then either drop the job under backpressure
(counting the rejection, leaving the step pending) or enqueue it. -/
def publishJob (st : SysState) (executionId : String) (node : WorkflowNode)
    (input : Option JSValue) (previousResults : List (String × JSValue))
    (attempt : Nat) (now : Nat) : SysState × String :=
  let ideKey := Idempotency.generateKey executionId node.id
  let stepId := freshId st
  let newStep : StepExecution := {
    id := stepId, executionId := executionId, nodeId := node.id,
    nodeLabel := node.label, nodeType := node.type, status := "pending",
    attempts := attempt, result := none, error := none,
    startedAt := some now, completedAt := none }
  let st1 := { st with steps := st.steps ++ [newStep], nextId := st.nextId + 1 }
  let check := Idempotency.checkAndSet st1.idem ideKey stepId Idempotency.DEFAULT_TTL_MS now
  let st2 := { st1 with idem := check.2 }
  let dup : Option String :=
    if check.1.duplicate then
      match check.1.existingStepId with
      | some existing => if existing ≠ "" then some existing else none
      | none => none
    else none
  match dup with
  | some existing =>
    ({ st2 with steps := st2.steps.filter (fun s => s.id ≠ stepId) }, existing)
  | none =>
    let maxRetries := getMaxRetries node
    let job : WorkerJob := {
      id := stepId, executionId := executionId, stepId := stepId, node := node,
      input := input, previousResults := previousResults, attempt := attempt,
      maxRetries := maxRetries, createdAt := now }
    let bp := Backpressure.canAccept Backpressure.DEFAULT_CONFIG st2.bpState st2.depth
    let st3 := { st2 with bpState := bp.2 }
    if !bp.1 then
      ({ st3 with bpRejected := st3.bpRejected + 1 }, stepId)
    else
      (enqueue job st3, stepId)

end FlowSync

namespace FlowSync

/- ═══════════════════ Result handler (src/lib/queue/result-handler.ts) ═══════════════════ -/

open Validations in
/-- Embeds filterActiveEdges: for a condition node with at least one
labelled outgoing edge, keep the edges whose branch label matches the
truthiness of result.result or that carry no label; otherwise keep all
outgoing edges. -/
def filterActiveEdges (outgoingEdges : List WorkflowEdge) (nodeType : String)
    (result : Option JSValue) : List WorkflowEdge :=
  if nodeType ≠ "condition" then outgoingEdges
  else
    let conditionResult : Bool :=
      match result with
      | some v => jsToBool (getField v "result")
      | none => false
    let labeledEdges := outgoingEdges.filter (fun e => e.conditionBranch.isSome)
    if !labeledEdges.isEmpty then
      let branch := if conditionResult then "true" else "false"
      outgoingEdges.filter (fun e => e.conditionBranch = some branch ∨ e.conditionBranch = none)
    else outgoingEdges

/-- JS object assignment previousResults[nodeId] = v on the association
list representation: replace in place or append. -/
def assocSet (l : List (String × JSValue)) (k : String) (v : JSValue) :
    List (String × JSValue) :=
  if l.any (fun p => p.1 = k) then l.map (fun p => if p.1 = k then (k, v) else p)
  else l ++ [(k, v)]

/-- The previous-results accumulation loops of handleResult: completed
steps with a truthy stored result are folded into the map. -/
def buildPreviousResults (steps : List StepExecution)
    (init : List (String × JSValue)) : List (String × JSValue) :=
  steps.foldl (fun acc s =>
    match s.result with
    | some v => if s.status = "completed" ∧ jsToBool v then assocSet acc s.nodeId v else acc
    | none => acc) init

/-- Step 1 of handleResult: the prisma update of the StepExecution row;
none models the throw on a missing row. -/
def updateStepRow (st : SysState) (r : WorkerResult) (now : Nat) : Option SysState :=
  if st.steps.any (fun s => s.id = r.stepId) then
    some { st with steps := st.steps.map (fun s =>
      if s.id = r.stepId then
        { s with status := r.status, result := r.result,
                 error := match r.error with
                   | some e => if e = "" then none else some e
                   | none => none,
                 completedAt := some now }
      else s) }
  else none

/-- Step 2 of handleResult, the failed branch: set the execution row to
failed with the error as output, sweep the pending steps of the
execution to skipped, and emit the failed completion signal. The
execution status is never consulted. -/
def failExecutionPath (st : SysState) (r : WorkerResult) (now : Nat) : Option SysState :=
  if st.executions.any (fun e => e.id = r.executionId) then
    let errVal : JSValue := match r.error with | some msg => .str msg | none => .undef
    let st1 := { st with executions := st.executions.map (fun (e : ExecutionRow) =>
      if e.id = r.executionId then
        { e with status := "failed",
                 output := some (.obj [("error", errVal)]),
                 completedAt := some now }
      else e) }
    let st2 := { st1 with steps := st1.steps.map (fun (s : StepExecution) =>
      if s.executionId = r.executionId ∧ s.status = "pending" then
        { s with status := "skipped", completedAt := some now } else s) }
    some { st2 with events := st2.events
      ++ [{ topic := "done:" ++ r.executionId, status := "failed", error := r.error }] }
  else none

/-- The skipped-step row created by skipBranch. -/
def createSkippedStep (st : SysState) (executionId : String) (node : WorkflowNode)
    (now : Nat) : SysState :=
  { st with
    steps := st.steps ++ [{
      id := freshId st, executionId := executionId, nodeId := node.id,
      nodeLabel := node.label, nodeType := node.type, status := "skipped",
      attempts := 0, result := none, error := none, startedAt := none,
      completedAt := some now }],
    nextId := st.nextId + 1 }

/-- The body of the skipBranch loop for one listed node id: nothing happens
when the node is already completed or scheduled, is a join, or is
unknown; otherwise create its skipped step and descend into its
downstream targets through the supplied recursion. -/
def skipNode (D : WorkflowDefinition) (executionId : String)
    (completedNodeIds pendingOrRunning : List String) (now : Nat)
    (descend : List String → SysState → SysState) (nodeId : String)
    (st : SysState) : SysState :=
  if completedNodeIds.contains nodeId ∨ pendingOrRunning.contains nodeId then st
  else
    match D.nodes.find? (fun n => n.id = nodeId) with
    | none => st
    | some node =>
      if node.type = "join" then st
      else
        let st1 := createSkippedStep st executionId node now
        let downstream := (D.edges.filter (fun e => e.source = nodeId)).map
          (fun e => e.target)
        descend downstream st1

/-- The for-of loop of skipBranch over the listed node ids. -/
def skipList (D : WorkflowDefinition) (executionId : String)
    (completedNodeIds pendingOrRunning : List String) (now : Nat)
    (descend : List String → SysState → SysState) :
    List String → SysState → SysState
  | [], st => st
  | nodeId :: rest, st =>
    skipList D executionId completedNodeIds pendingOrRunning now descend rest
      (skipNode D executionId completedNodeIds pendingOrRunning now descend nodeId st)

/-- Embeds skipBranch: walk the listed node ids, creating a skipped step
for each node that is not already completed or scheduled and is not a
join, then recurse into its downstream targets. The source recursion
terminates because definitions are DAGs; the fuel supplied by the
caller bounds the recursion depth and covers every path length that
can arise there (on an empty target list the recursion returns the
state unchanged, so the depth-zero callback below is exact). -/
def skipBranch (D : WorkflowDefinition) (executionId : String)
    (completedNodeIds pendingOrRunning : List String) (now : Nat) :
    Nat → List String → SysState → SysState
  | 0, ids, st =>
    skipList D executionId completedNodeIds pendingOrRunning now
      (fun _ s => s) ids st
  | fuel + 1, ids, st =>
    skipList D executionId completedNodeIds pendingOrRunning now
      (fun ds s => skipBranch D executionId completedNodeIds pendingOrRunning now fuel ds s)
      ids st

/-- The completion branch of handleResult: mark the execution completed
with the accumulated previous results as output and emit the completed
signal. -/
def completeExecution (st : SysState) (r : WorkerResult)
    (previousResults : List (String × JSValue)) (now : Nat) : SysState :=
  { st with
    executions := st.executions.map (fun e =>
      if e.id = r.executionId then
        { e with status := "completed", output := some (.obj previousResults),
                 completedAt := some now }
      else e),
    events := st.events ++ [⟨"done:" ++ r.executionId, "completed", none⟩] }

/-- Steps 3-8 of handleResult for a completed result: compute the
outgoing edges of the completed node, filter them by condition branch,
skip the inactive branch targets, recompute the ready set (a node with
at least one in-edge, not yet scheduled or settled, all of whose
in-edge sources are completed or skipped; join nodes use the same
settled-sources rule), publish one job per ready node, and otherwise
complete the execution when nothing is pending or running. Note that
the parent execution row enters only through its input field. -/
def advanceDAG (st : SysState) (r : WorkerResult) (execInput : Option JSValue)
    (D : WorkflowDefinition) (now : Nat) : SysState :=
  let steps := st.steps.filter (fun s => s.executionId = r.executionId)
  let completedNodeIds := (steps.filter (fun s => s.status = "completed")).map
    (fun s => s.nodeId)
  let pendingOrRunning := (steps.filter
    (fun s => s.status = "pending" ∨ s.status = "running")).map (fun s => s.nodeId)
  let previousResults := buildPreviousResults steps []
  let completedStep := steps.find? (fun s => s.id = r.stepId)
  let outgoingEdges := match completedStep with
    | some cs => D.edges.filter (fun e => e.source = cs.nodeId)
    | none => []
  let activeEdges := filterActiveEdges outgoingEdges
    (match completedStep with | some cs => cs.nodeType | none => "") r.result
  let activeTargetIds := activeEdges.map (fun e => e.target)
  let skippedBranchTargets := (outgoingEdges.filter
    (fun e => ¬ activeTargetIds.contains e.target)).map (fun e => e.target)
  let st1 :=
    if !skippedBranchTargets.isEmpty then
      skipBranch D r.executionId completedNodeIds pendingOrRunning now
        (D.nodes.length + 1) skippedBranchTargets st
    else st
  let updatedSteps := st1.steps.filter (fun s => s.executionId = r.executionId)
  let updatedCompleted := (updatedSteps.filter (fun s => s.status = "completed")).map
    (fun s => s.nodeId)
  let updatedSkipped := (updatedSteps.filter (fun s => s.status = "skipped")).map
    (fun s => s.nodeId)
  let updatedPendingOrRunning := (updatedSteps.filter
    (fun s => s.status = "pending" ∨ s.status = "running")).map (fun s => s.nodeId)
  let readyNodes := D.nodes.filter (fun node =>
    if updatedCompleted.contains node.id ∨ updatedSkipped.contains node.id
        ∨ updatedPendingOrRunning.contains node.id then false
    else
      let incomingEdges := D.edges.filter (fun e => e.target = node.id)
      if incomingEdges.isEmpty then false
      else incomingEdges.all
        (fun e => updatedCompleted.contains e.source ∨ updatedSkipped.contains e.source))
  let previousResults2 := buildPreviousResults updatedSteps previousResults
  if !readyNodes.isEmpty then
    readyNodes.foldl
      (fun s node => (publishJob s r.executionId node execInput previousResults2 1 now).1)
      st1
  else if updatedPendingOrRunning.isEmpty then
    completeExecution st1 r previousResults2 now
  else st1

/-- Embeds handleResult: update the step row (a missing row throws),
take the failed branch for a failed result, otherwise load the
execution (silently returning when missing) and its workflow and
advance the DAG. Metrics, logging and the audit trail are write-only in
the source and are not modelled. -/
def handleResult (st : SysState) (r : WorkerResult) (now : Nat) : Option SysState :=
  match updateStepRow st r now with
  | none => none
  | some st1 =>
    if r.status = "failed" then failExecutionPath st1 r now
    else
      match st1.executions.find? (fun e => e.id = r.executionId) with
      | none => some st1
      | some execution =>
        match st1.workflows.find? (fun w => w.id = execution.workflowId) with
        | none => none
        | some workflow =>
          some (advanceDAG st1 r execution.input workflow.definitionJson now)

end FlowSync

namespace FlowSync

/- ═══════════════════ Job consumer (processJob, Phase 11) ═══════════════════ -/

/-- A registered handler: the execute call either returns a WorkerResult
or throws (modelled by Except.error with the thrown message). -/
def Handler : Type := WorkerJob → Except String WorkerResult

/-- The synthetic result for a missing handler (not retryable). -/
def noHandlerResult (job : WorkerJob) : WorkerResult :=
  { jobId := job.id, stepId := job.stepId, executionId := job.executionId,
    status := "failed", result := none,
    error := some ("No handler registered for node type: " ++ job.node.type),
    durationMs := 0, retryable := some false }

/-- The synthetic result for a handler exception (retryable). -/
def exceptionResult (job : WorkerJob) (msg : String) : WorkerResult :=
  { jobId := job.id, stepId := job.stepId, executionId := job.executionId,
    status := "failed", result := none, error := some msg,
    durationMs := 0, retryable := some true }

/-- The initial prisma update of processJob marking the step running
with attempts = job.attempt; none models the throw on a missing row
(the step was cancelled or skipped away). -/
def markStepRunning (st : SysState) (job : WorkerJob) (now : Nat) : Option SysState :=
  if st.steps.any (fun s => s.id = job.stepId) then
    some { st with steps := st.steps.map (fun (s : StepExecution) =>
      if s.id = job.stepId then
        { s with status := "running", startedAt := some now, attempts := job.attempt }
      else s) }
  else none

/-- The step-row update of the retry branch: back to pending with the
retry error message and attempts = job.attempt. -/
def markStepRetryPending (st : SysState) (job : WorkerJob) (errMsg : Option String) :
    SysState :=
  { st with steps := st.steps.map (fun (s : StepExecution) =>
    if s.id = job.stepId then
      { s with status := "pending",
               error := some ("Retry " ++ toString job.attempt ++ "/"
                 ++ toString job.maxRetries ++ ": " ++ (errMsg.getD "undefined")),
               attempts := job.attempt }
    else s) }

/-- Embeds processJob: mark the step running (aborting with a failed
queue row when it is gone), resolve and run the handler, reflect the
terminal queue state, then either schedule a retry (step back to
pending, idempotency key cleared, a fresh job with attempt + 1 returned
for the delayed enqueue - not forwarded to the result handler), or add
a DLQ entry on exhaustion when maxRetries is positive and forward the
result to the result handler (whose throw is caught by the source). -/
def processJob (registry : String → Option Handler) (job : WorkerJob)
    (st : SysState) (now : Nat) : SysState × Option WorkerJob :=
  match markStepRunning st job now with
  | none => (markFailed job.id (some "Step no longer exists or was cancelled") st, none)
  | some st1 =>
    let outcome : WorkerResult × SysState :=
      match registry job.node.type with
      | none => (noHandlerResult job, markFailed job.id (noHandlerResult job).error st1)
      | some handler =>
        match handler job with
        | .ok res =>
          if res.status = "completed" then (res, markDone job.id res.result st1)
          else (res, markFailed job.id res.error st1)
        | .error msg => (exceptionResult job msg, markFailed job.id (some msg) st1)
    let result := outcome.1
    let st2 := outcome.2
    if result.status = "failed" ∧ result.retryable ≠ some false
        ∧ job.attempt < job.maxRetries then
      let st3 := markStepRetryPending st2 job result.error
      let st4 := { st3 with
        idem := Idempotency.remove st3.idem
          (Idempotency.generateKey job.executionId job.node.id) }
      (st4, some { job with attempt := job.attempt + 1, createdAt := now })
    else
      let st3 :=
        if result.status = "failed" ∧ job.maxRetries > 0 then
          { st2 with dlq := st2.dlq
            ++ [{ job := job, error := strOr result.error "Unknown error",
                  attempts := job.attempt }] }
        else st2
      let st4 :=
        match handleResult st3 result now with
        | some s => s
        | none => st3
      (st4, none)

/-- Drives one job to completion through the consumer: each retry job
returned by processJob is enqueued (the setTimeout firing) and picked
up again. The fuel bounds the retry chain; job.maxRetries + 1 always
suffices because the attempt counter strictly grows up to maxRetries. -/
def runJob (registry : String → Option Handler) :
    Nat → WorkerJob → SysState → Nat → SysState
  | 0, _, st, _ => st
  | fuel + 1, job, st, now =>
    match processJob registry job st now with
    | (st', none) => st'
    | (st', some retryJob) => runJob registry fuel retryJob (enqueue retryJob st') now

/- ═══════════════════ Orchestrator (src/lib/orchestrator.ts, executeWorkflow) ═══════════════════ -/

/-- Embeds the synchronous prefix of executeWorkflow: load the workflow
(throwing not-found when missing - no status check is performed),
create the execution row in running, compute the initial nodes (no
incoming edges), completing immediately when there are none, otherwise
publish one job per initial node. The subsequent waitForExecution is
event-driven and outside this model; it performs no state change of its
own. Returns the new state and the execution id. -/
def executeWorkflow (st : SysState) (workflowId : String) (input : Option JSValue)
    (userId : Option String) (now : Nat) : Except String (SysState × String) :=
  match st.workflows.find? (fun w => w.id = workflowId) with
  | none => .error ("Workflow " ++ workflowId ++ " not found")
  | some workflow =>
    let D := workflow.definitionJson
    let executionId := freshId st
    let execution : ExecutionRow := {
      id := executionId, workflowId := workflowId, status := "running",
      input := input, output := none, userId := userId, completedAt := none }
    let st1 := { st with executions := st.executions ++ [execution],
                         nextId := st.nextId + 1 }
    let nodesWithIncoming := D.edges.map (fun e => e.target)
    let initialNodes := D.nodes.filter (fun n => ¬ nodesWithIncoming.contains n.id)
    if initialNodes.isEmpty then
      .ok ({ st1 with executions := st1.executions.map (fun (e : ExecutionRow) =>
        if e.id = executionId then
          { e with status := "completed", output := some (.obj []),
                   completedAt := some now }
        else e) }, executionId)
    else
      .ok (initialNodes.foldl
        (fun s node => (publishJob s executionId node input [] 1 now).1) st1,
        executionId)

end FlowSync

namespace FlowSync

/- ═══════════════════ Auxiliary state transformers used in statements ═══════════════════ -/

/-- Overwrite the status of one execution row (used to express that
handleResult never reads it). -/
def setExecStatus (st : SysState) (executionId status : String) : SysState :=
  { st with executions := st.executions.map (fun (e : ExecutionRow) =>
    if e.id = executionId then { e with status := status } else e) }

/-- Overwrite the status of one workflow row (used to express that
executeWorkflow never reads it). -/
def setWorkflowStatus (st : SysState) (workflowId status : String) : SysState :=
  { st with workflows := st.workflows.map (fun (w : WorkflowRow) =>
    if w.id = workflowId then { w with status := status } else w) }

/-- Erase the executions table, for stating that two states agree on
everything else. -/
def eraseExecutions (st : SysState) : SysState :=
  { st with executions := [] }

/-- Erase the workflows table, for stating that two states agree on
everything else. -/
def eraseWorkflows (st : SysState) : SysState :=
  { st with workflows := [] }

/- ═══════════════════ Concrete fixtures ═══════════════════ -/

/-- The empty engine state. -/
def emptySysState : SysState :=
  { workflows := [], executions := [], steps := [], jobRows := [], dlq := [],
    idem := fun _ => none, bpState := .accepting,
    totalEnqueued := 0, totalProcessed := 0, totalFailed := 0, bpRejected := 0,
    nextId := 0, enqueuedLog := [], events := [] }

/-- An action node whose config sets retry.maxRetries = 1. -/
def retryNode : WorkflowNode :=
  { id := "A", type := "action", label := "A",
    config := { retry := some { maxRetries := some 1, backoffMs := none,
                                backoffMultiplier := none },
                expression := none } }

/-- A handler that fails on every attempt with a retryable error. -/
def alwaysFailHandler : Handler := fun job =>
  .ok { jobId := job.id, stepId := job.stepId, executionId := job.executionId,
        status := "failed", result := none, error := some "boom",
        durationMs := 0, retryable := some true }

/-- A registry carrying only the always-failing action handler. -/
def failingRegistry : String → Option Handler :=
  fun ty => if ty = "action" then some alwaysFailHandler else none

/-- The job the publisher would build for retryNode on attempt 1. -/
def retryJobInput : WorkerJob :=
  { id := "s1", executionId := "e1", stepId := "s1", node := retryNode,
    input := none, previousResults := [], attempt := 1,
    maxRetries := getMaxRetries retryNode, createdAt := 0 }

/-- State with a running execution and the pending step for retryNode. -/
def retryState : SysState :=
  { emptySysState with
    executions := [{ id := "e1", workflowId := "w1", status := "running",
                     input := none, output := none, userId := none,
                     completedAt := none }],
    steps := [{ id := "s1", executionId := "e1", nodeId := "A", nodeLabel := "A",
                nodeType := "action", status := "pending", attempts := 1,
                result := none, error := none, startedAt := some 0,
                completedAt := none }] }

/-- A three-node linear definition: start, an action A, end. -/
def linDef : WorkflowDefinition :=
  { nodes := [
      { id := "start", type := "start", label := "Start", config := NodeConfig.emptyCfg },
      { id := "A", type := "action", label := "A", config := NodeConfig.emptyCfg },
      { id := "end", type := "end", label := "End", config := NodeConfig.emptyCfg } ],
    edges := [
      { id := "e1", source := "start", target := "A", conditionBranch := none },
      { id := "e2", source := "A", target := "end", conditionBranch := none } ] }

/-- State of a cancelled execution of linDef whose action step is still
in flight: start completed, A running, the execution row cancelled. -/
def cancelledState : SysState :=
  { emptySysState with
    workflows := [{ id := "w1", name := "wf", status := "active",
                    definitionJson := linDef }],
    executions := [{ id := "e1", workflowId := "w1", status := "cancelled",
                     input := none, output := none, userId := none,
                     completedAt := none }],
    steps := [
      { id := "s0", executionId := "e1", nodeId := "start", nodeLabel := "Start",
        nodeType := "start", status := "completed", attempts := 1,
        result := some (.obj [("message", .str "ok")]), error := none,
        startedAt := some 0, completedAt := some 1 },
      { id := "sA", executionId := "e1", nodeId := "A", nodeLabel := "A",
        nodeType := "action", status := "running", attempts := 1,
        result := none, error := none, startedAt := some 1,
        completedAt := none } ] }

/-- The in-flight worker result for step sA, arriving after the
cancellation. -/
def completedAResult : WorkerResult :=
  { jobId := "sA", stepId := "sA", executionId := "e1", status := "completed",
    result := some (.obj [("ok", .bool true)]), error := none,
    durationMs := 5, retryable := none }

/-- A failed worker result for step sA. -/
def failedAResult : WorkerResult :=
  { jobId := "sA", stepId := "sA", executionId := "e1", status := "failed",
    result := none, error := some "boom", durationMs := 5, retryable := some false }

/-- State holding only a draft (non-active) workflow. -/
def draftState : SysState :=
  { emptySysState with
    workflows := [{ id := "w1", name := "wf", status := "draft",
                    definitionJson := linDef }] }

/-- A job with maxRetries = 0 (the default retry policy). -/
def zeroRetryJob : WorkerJob :=
  { id := "j1", executionId := "e1", stepId := "j1",
    node := { id := "N", type := "action", label := "N", config := NodeConfig.emptyCfg },
    input := none, previousResults := [], attempt := 1, maxRetries := 0,
    createdAt := 0 }

/-- Monday 2024-01-01 00:00. -/
def someDate : Cron.DateT :=
  { year := 2024, month := 1, day := 1, hour := 0, minute := 0, weekday := 1 }

end FlowSync

namespace FlowSync

/-- Apply transformations to the workflows and executions tables only,
leaving every other component of the state alone. Both status-overwrite
helpers above are instances of this shape. -/
def mapTables (st : SysState) (fw : List WorkflowRow → List WorkflowRow)
    (fe : List ExecutionRow → List ExecutionRow) : SysState :=
  { st with workflows := fw st.workflows, executions := fe st.executions }


/- ═══════════════════ Backpressure theorems (C6) ═══════════════════ -/

lemma canAccept_step_not_accepting (s : Backpressure.BackpressureState) (d : Nat)
    (hs : s ≠ Backpressure.BackpressureState.accepting) (hd : 200 < d) :
    (Backpressure.canAccept Backpressure.DEFAULT_CONFIG s d).2
      ≠ Backpressure.BackpressureState.accepting := by
  unfold Backpressure.canAccept Backpressure.DEFAULT_CONFIG
  split_ifs with h1 h2 h3
  · simp
  · simp
  · simp at h3; omega
  · simpa using hs

lemma runCalls_not_accepting (s : Backpressure.BackpressureState) (ds : List Nat)
    (hs : s ≠ Backpressure.BackpressureState.accepting) (hds : ∀ d ∈ ds, 200 < d) :
    Backpressure.runCalls Backpressure.DEFAULT_CONFIG s ds
      ≠ Backpressure.BackpressureState.accepting := by
  induction ds generalizing s with
  | nil => simpa [Backpressure.runCalls] using hs
  | cons d rest ih =>
    simp only [Backpressure.runCalls, List.foldl_cons] at *
    exact ih _ (canAccept_step_not_accepting s d hs (hds d (by simp)))
      (fun x hx => hds x (by simp [hx]))

/-- C6: with the default thresholds (lowWater 200, highWater 800,
maxDepth 1000), canAccept returns false exactly when the observed depth
is at least maxDepth; a depth in the pressured band moves the state to
pressured; and from any non-accepting state the controller cannot
return to accepting while every observed depth stays above lowWater. -/
theorem backpressure_canAccept_spec :
    (∀ (s : Backpressure.BackpressureState) (d : Nat),
      (Backpressure.canAccept Backpressure.DEFAULT_CONFIG s d).1 = false ↔ 1000 ≤ d)
    ∧ (∀ (s : Backpressure.BackpressureState) (d : Nat), 800 ≤ d → d < 1000 →
        (Backpressure.canAccept Backpressure.DEFAULT_CONFIG s d).2
          = Backpressure.BackpressureState.pressured)
    ∧ (∀ (s : Backpressure.BackpressureState) (ds : List Nat),
        s ≠ Backpressure.BackpressureState.accepting → (∀ d ∈ ds, 200 < d) →
        Backpressure.runCalls Backpressure.DEFAULT_CONFIG s ds
          ≠ Backpressure.BackpressureState.accepting) := by
  refine ⟨?_, ?_, runCalls_not_accepting⟩
  · intro s d
    by_cases h1 : d ≥ 1000
    · simp [Backpressure.canAccept, Backpressure.DEFAULT_CONFIG, h1]
    · by_cases h2 : d ≥ 800
      · simp [Backpressure.canAccept, Backpressure.DEFAULT_CONFIG, h1, h2]
      · by_cases h3 : d ≤ 200
        · simp [Backpressure.canAccept, Backpressure.DEFAULT_CONFIG, h1, h2, h3]
        · simp [Backpressure.canAccept, Backpressure.DEFAULT_CONFIG, h1, h2, h3]
  · intro s d h8 h10
    have h1 : ¬ (d ≥ 1000) := by omega
    have h2 : d ≥ 800 := h8
    simp [Backpressure.canAccept, Backpressure.DEFAULT_CONFIG, h1, h2]

/-- Witness for C6 at concrete depths. -/
theorem backpressure_canAccept_spec_witness :
    ((Backpressure.canAccept Backpressure.DEFAULT_CONFIG
        Backpressure.BackpressureState.accepting 1000).1 = false)
    ∧ (Backpressure.canAccept Backpressure.DEFAULT_CONFIG
        Backpressure.BackpressureState.accepting 900).2
        = Backpressure.BackpressureState.pressured
    ∧ Backpressure.runCalls Backpressure.DEFAULT_CONFIG
        Backpressure.BackpressureState.pressured [900, 500, 201]
        ≠ Backpressure.BackpressureState.accepting :=
  ⟨(backpressure_canAccept_spec.1 _ 1000).mpr (by decide),
   backpressure_canAccept_spec.2.1 _ 900 (by decide) (by decide),
   backpressure_canAccept_spec.2.2 _ [900, 500, 201] (by decide) (by decide)⟩

/- ═══════════════════ Idempotency theorems (C7, C10) ═══════════════════ -/

/-- C7: after a non-duplicate checkAndSet of s1 under key k, a second
checkAndSet of s2 before the ttl has elapsed reports a duplicate with
existing step id s1; and after remove k, a checkAndSet under k never
reports a duplicate. -/
theorem idempotency_roundtrip (m : Idempotency.Store) (k s1 s2 : String)
    (ttl t0 t1 : Nat)
    (hfirst : ((Idempotency.checkAndSet m k s1 ttl t0).1).duplicate = false)
    (hlive : t1 < t0 + ttl) :
    (Idempotency.checkAndSet ((Idempotency.checkAndSet m k s1 ttl t0).2) k s2 ttl t1).1
      = ⟨true, some s1⟩
    ∧ (∀ (m2 : Idempotency.Store) (t2 : Nat),
        ((Idempotency.checkAndSet (Idempotency.remove m2 k) k s2 ttl t2).1).duplicate
          = false) := by
  constructor
  · have hstore : ((Idempotency.checkAndSet m k s1 ttl t0).2) k
        = some ⟨s1, t0 + ttl⟩ := by
      by_cases hdup : ((Idempotency.checkAndSet m k s1 ttl t0).1).duplicate = true
      · rw [hfirst] at hdup; exact absurd hdup (by simp)
      · unfold Idempotency.checkAndSet at hdup ⊢
        cases hm : m k with
        | none => simp
        | some ex =>
          rw [hm] at hdup
          by_cases hex : ex.expiresAt > t0
          · simp [hex] at hdup
          · simp [hex]
    have hgen : ∀ (st : Idempotency.Store), st k = some ⟨s1, t0 + ttl⟩ →
        (Idempotency.checkAndSet st k s2 ttl t1).1 = ⟨true, some s1⟩ := by
      intro st hst
      unfold Idempotency.checkAndSet
      rw [hst]
      simp [hlive]
    exact hgen _ hstore
  · intro m2 t2
    simp [Idempotency.checkAndSet, Idempotency.remove]

/-- Witness for C7 on a fresh store. -/
theorem idempotency_roundtrip_witness :
    (Idempotency.checkAndSet
      ((Idempotency.checkAndSet (fun _ => none) "k" "s1" 10 0).2) "k" "s2" 10 5).1
      = ⟨true, some "s1"⟩ :=
  (idempotency_roundtrip (fun _ => none) "k" "s1" "s2" 10 0 5 (by decide) (by decide)).1

/-- C10: a stored entry whose expiry is at or before now is treated as
absent: checkAndSet reports no duplicate and overwrites the entry with
the new step id and a fresh expiry of now + ttl. -/
theorem idempotency_expired_reusable (m : Idempotency.Store) (k s s' : String)
    (e ttl t : Nat) (hstored : m k = some ⟨s', e⟩) (hexpired : e ≤ t) :
    (Idempotency.checkAndSet m k s ttl t).1 = ⟨false, none⟩
    ∧ ((Idempotency.checkAndSet m k s ttl t).2) k = some ⟨s, t + ttl⟩ := by
  unfold Idempotency.checkAndSet
  rw [hstored]
  have h : ¬ (e > t) := not_lt.mpr hexpired
  simp [h]

/-- Witness for C10 on a store holding an expired entry. -/
theorem idempotency_expired_reusable_witness :
    (Idempotency.checkAndSet
      (fun k => if k = "k" then some ⟨"old", 3⟩ else none) "k" "new" 10 3).1
      = ⟨false, none⟩ :=
  (idempotency_expired_reusable (fun k => if k = "k" then some ⟨"old", 3⟩ else none)
    "k" "new" "old" 3 10 3 (by decide) (by decide)).1

/- ═══════════════════ Condition handler theorems (C9) ═══════════════════ -/

lemma searchNext_sound (f : Cron.CronFields) :
    ∀ (fuel : Nat) (c d : Cron.DateT),
      Cron.searchNext f fuel c = some d → Cron.matchesFields f d = true := by
  intro fuel
  induction fuel with
  | zero => intro c d h; simp [Cron.searchNext] at h
  | succ n ih =>
    intro c d h
    rw [Cron.searchNext] at h
    by_cases hm : Cron.matchesFields f c
    · simp [hm] at h
      subst h
      exact hm
    · simp [hm] at h
      exact ih _ _ h

/-- C8: whenever getNextRunTime returns a date for an expression, that
date satisfies shouldRun for the same expression. -/
theorem cron_next_matches (e : String) (t d : Cron.DateT)
    (h : Cron.getNextRunTime e t = some d) :
    Cron.shouldRun e d = true := by
  unfold Cron.getNextRunTime at h
  unfold Cron.shouldRun
  cases hp : Cron.parseCron e with
  | error msg => rw [hp] at h; simp at h
  | ok f => rw [hp] at h; exact searchNext_sound f _ _ _ h

/-- Witness for C8 on the every-minute expression. -/
theorem cron_next_matches_witness :
    Cron.getNextRunTime "* * * * *" someDate
      = some { year := 2024, month := 1, day := 1, hour := 0, minute := 1, weekday := 1 }
    ∧ Cron.shouldRun "* * * * *"
        { year := 2024, month := 1, day := 1, hour := 0, minute := 1, weekday := 1 }
      = true :=
  ⟨by decide, cron_next_matches "* * * * *" someDate _ (by decide)⟩

end FlowSync

namespace FlowSync

/- ═══════════════════ Queue enqueue theorems (C4) ═══════════════════ -/

/-- C4 amended: enqueue inserts exactly one row with status pending,
attempts 0 and the job as payload, but maxAttempts is maxRetries + 1
only for nonzero maxRetries; the JS truthiness check maps maxRetries 0
to the fallback 3. -/
theorem enqueue_row_shape (job : WorkerJob) (st : SysState) :
    ∃ row : JobRow,
      (enqueue job st).jobRows = st.jobRows ++ [row]
      ∧ row.id = job.id ∧ row.status = "pending" ∧ row.attempts = 0
      ∧ row.payload = job
      ∧ row.maxAttempts = (if job.maxRetries = 0 then 3 else job.maxRetries + 1) := by
  refine ⟨_, rfl, rfl, rfl, rfl, rfl, ?_⟩
  by_cases h : job.maxRetries = 0 <;> simp [h]

/-- C4 counterexample: a job with maxRetries = 0 is inserted with
maxAttempts 3, not maxRetries + 1 = 1. -/
theorem enqueue_zero_retries_maxAttempts_three :
    ((enqueue zeroRetryJob emptySysState).jobRows.map (fun r => r.maxAttempts) = [3])
    ∧ zeroRetryJob.maxRetries + 1 = 1 := by
  decide

/- ═══════════════════ Consumer retry evaluation (C1) ═══════════════════ -/

/-- C1: evaluation of the consumer at the failing input. For the node
with retry.maxRetries = 1 and the always-failing handler, the retry
guard attempt < maxRetries is already false on attempt 1, so the step
ends failed after exactly one attempt (not two), with exactly one DLQ
entry, and the execution is marked failed. -/
theorem retry_exhaustion_single_attempt :
    (runJob failingRegistry 5 retryJobInput retryState 7).steps.map
        (fun s => (s.id, s.status, s.attempts)) = [("s1", "failed", 1)]
    ∧ (runJob failingRegistry 5 retryJobInput retryState 7).dlq.length = 1
    ∧ (runJob failingRegistry 5 retryJobInput retryState 7).executions.map
        (fun e => e.status) = ["failed"]
    ∧ retryJobInput.maxRetries = 1 := by
  decide

/- ═══════════════════ Result handler counterexample (C2) ═══════════════════ -/

/-- C2 counterexample: a completed result arriving for an execution
whose status is cancelled still advances the DAG - handleResult
publishes a job for the successor node end. -/
theorem handleResult_advances_cancelled_execution :
    (cancelledState.executions.map (fun e => (e.id, e.status)) = [("e1", "cancelled")])
    ∧ ((handleResult cancelledState completedAResult 9).map
        (fun s => s.enqueuedLog.map (fun j => j.node.id))) = some ["end"] := by
  decide

/- ═══════════════════ Orchestrator counterexample (C3) ═══════════════════ -/

/-- C3 counterexample: executeWorkflow on a workflow whose status is
draft does not fail with a not-active error - it creates a running
execution row and proceeds. -/
theorem executeWorkflow_runs_draft_workflow :
    (draftState.workflows.map (fun w => (w.id, w.status)) = [("w1", "draft")])
    ∧ ((executeWorkflow draftState "w1" none none 0).toOption.map
        (fun p => (p.2, p.1.executions.map (fun e => (e.workflowId, e.status)))))
      = some ("id-0", [("w1", "running")]) := by
  decide

end FlowSync

namespace FlowSync
namespace Validations

/- ═══════════════════ Kahn phase: supporting lemmas (C5) ═══════════════════ -/

lemma buildAdjacency_eq (edges : List WorkflowEdge) (u : String) :
    buildAdjacency edges u
      = (edges.filter (fun e => e.source = u)).map (fun e => e.target) := by
  suffices h : ∀ (es : List WorkflowEdge) (f : String → List String) (u : String),
      es.foldl (fun adj e => fun k => if k = e.source then adj k ++ [e.target] else adj k) f u
        = f u ++ (es.filter (fun e => e.source = u)).map (fun e => e.target) by
    simpa [buildAdjacency] using h edges (fun _ => []) u
  intro es
  induction es with
  | nil => intro f u; simp
  | cons e rest ih =>
    intro f u
    simp only [List.foldl_cons]
    rw [ih]
    by_cases h : u = e.source
    · subst h
      simp [List.filter_cons]
    · simp [List.filter_cons, h, Ne.symm h]

lemma buildInDegree_eq (edges : List WorkflowEdge) (v : String) :
    buildInDegree edges v = ((edges.filter (fun e => e.target = v)).length : Int) := by
  suffices h : ∀ (es : List WorkflowEdge) (f : String → Int) (v : String),
      es.foldl (fun deg e => fun k => if k = e.target then deg k + 1 else deg k) f v
        = f v + ((es.filter (fun e => e.target = v)).length : Int) by
    simpa [buildInDegree] using h edges (fun _ => 0) v
  intro es
  induction es with
  | nil => intro f v; simp
  | cons e rest ih =>
    intro f v
    simp only [List.foldl_cons]
    rw [ih]
    by_cases h : v = e.target
    · subst h
      simp [List.filter_cons]
      ring
    · simp [List.filter_cons, h, Ne.symm h]

lemma count_map_target (l : List WorkflowEdge) (v : String) :
    ((l.map (fun e => e.target)).count v) = (l.filter (fun e => e.target = v)).length := by
  induction l with
  | nil => rfl
  | cons e rest ih =>
    by_cases h : e.target = v
    · simp [List.count_cons, List.filter_cons, h, ih]
    · simp [List.count_cons, List.filter_cons, h, ih]

lemma count_adj (edges : List WorkflowEdge) (current v : String) :
    ((buildAdjacency edges current).count v)
      = (edges.filter (fun e => e.source = current ∧ e.target = v)).length := by
  rw [buildAdjacency_eq, count_map_target]
  induction edges with
  | nil => rfl
  | cons e rest ih =>
    by_cases hs : e.source = current
    · rw [show List.filter (fun e => decide (e.source = current)) (e :: rest)
          = e :: List.filter (fun e => decide (e.source = current)) rest by
        rw [List.filter_cons, if_pos (by simp [hs])]]
      by_cases ht : e.target = v
      · rw [List.filter_cons, if_pos (by simp [ht]),
          List.filter_cons, if_pos (by simp [hs, ht])]
        simp only [List.length_cons]
        omega
      · rw [List.filter_cons, if_neg (by simp [ht]),
          List.filter_cons, if_neg (by simp [ht])]
        exact ih
    · rw [show List.filter (fun e => decide (e.source = current)) (e :: rest)
          = List.filter (fun e => decide (e.source = current)) rest by
        rw [List.filter_cons, if_neg (by simp [hs])]]
      rw [List.filter_cons, if_neg (by simp [hs])]
      exact ih

lemma cntOutside_nil (edges : List WorkflowEdge) (v : String) :
    cntOutside edges [] v = (edges.filter (fun e => e.target = v)).length := by
  unfold cntOutside
  congr 1
  apply List.filter_congr
  intro e _
  simp

lemma cntOutside_split (edges : List WorkflowEdge) (S : List String) (current v : String)
    (h : current ∉ S) :
    cntOutside edges S v
      = cntOutside edges (S ++ [current]) v
        + (edges.filter (fun e => e.source = current ∧ e.target = v)).length := by
  unfold cntOutside
  induction edges with
  | nil => rfl
  | cons e rest ih =>
    rw [List.filter_cons, List.filter_cons, List.filter_cons]
    by_cases ht : e.target = v
    · by_cases hsS : e.source ∈ S
      · have h1 : e.source ∈ S ++ [current] := List.mem_append_left _ hsS
        have h2 : ¬ (e.source = current) := fun hc => h (hc ▸ hsS)
        rw [if_neg (by simp [hsS]), if_neg (by simp [h1]), if_neg (by simp [h2])]
        exact ih
      · by_cases hsc : e.source = current
        · have h1 : e.source ∈ S ++ [current] := by simp [hsc]
          rw [if_pos (by simp [ht, hsS]), if_neg (by simp [h1]),
            if_pos (by simp [hsc, ht])]
          simp only [List.length_cons]
          omega
        · have h1 : e.source ∉ S ++ [current] := by simp [hsS, hsc]
          rw [if_pos (by simp [ht, hsS]), if_pos (by simp [ht, h1]),
            if_neg (by simp [hsc])]
          simp only [List.length_cons]
          omega
    · rw [if_neg (by simp [ht]), if_neg (by simp [ht]), if_neg (by simp [ht])]
      exact ih

lemma nodup_append_singleton {l : List String} {a : String}
    (h : l.Nodup) (ha : a ∉ l) : (l ++ [a]).Nodup := by
  have hp : (l ++ [a]).Perm (a :: l) := List.perm_append_singleton a l
  exact hp.nodup_iff.mpr (List.nodup_cons.mpr ⟨ha, h⟩)

end Validations
end FlowSync

namespace FlowSync
namespace Validations

lemma processNeighbors_spec (edges : List WorkflowEdge) (nodeIds : List String)
    (order0 : List String) (current : String)
    (hcur : current ∉ order0)
    (hI4 : ∀ e ∈ edges, e.target ∈ order0 ++ [current] →
      e.source ∈ order0 ++ [current]
        ∧ (order0 ++ [current]).indexOf e.source
            < (order0 ++ [current]).indexOf e.target) :
    ∀ (nbs : List String) (deg : String → Int) (queue : List String),
      (∀ v, deg v = (cntOutside edges (order0 ++ [current]) v : Int) + (nbs.count v : Int)) →
      (∀ v ∈ queue, deg v = 0) →
      ((order0 ++ [current]) ++ queue).Nodup →
      (∀ v ∈ queue, v ∈ nodeIds) →
      (∀ v ∈ nbs, v ∈ nodeIds) →
      (∀ v ∈ nbs, ∃ e ∈ edges, e.source = current ∧ e.target = v) →
      (∀ v, (processNeighbors deg queue nbs).1 v
          = (cntOutside edges (order0 ++ [current]) v : Int))
      ∧ (∀ v ∈ (processNeighbors deg queue nbs).2, (processNeighbors deg queue nbs).1 v = 0)
      ∧ ((order0 ++ [current]) ++ (processNeighbors deg queue nbs).2).Nodup
      ∧ (∀ v ∈ (processNeighbors deg queue nbs).2, v ∈ nodeIds) := by
  intro nbs
  induction nbs with
  | nil =>
    intro deg queue hdeg hq0 hN hqids _ _
    refine ⟨fun v => ?_, hq0, hN, hqids⟩
    simpa using hdeg v
  | cons nb rest ih =>
    intro deg queue hdeg hq0 hN hqids hnbids hedge
    have hnbq : nb ∉ queue := by
      intro hmem
      have h0 := hq0 nb hmem
      have hd := hdeg nb
      rw [h0] at hd
      have hc : (nb :: rest).count nb = rest.count nb + 1 := by
        simp [List.count_cons]
      rw [hc] at hd
      omega
    have hdegN : ∀ v, (fun k => if k = nb then deg nb - 1 else deg k) v
        = (cntOutside edges (order0 ++ [current]) v : Int) + (rest.count v : Int) := by
      intro v
      dsimp only
      by_cases hv : v = nb
      · rw [if_pos hv, hv]
        have hd := hdeg nb
        have hc : (nb :: rest).count nb = rest.count nb + 1 := by
          simp [List.count_cons]
        rw [hc] at hd
        omega
      · rw [if_neg hv]
        have hd := hdeg v
        have hc : (nb :: rest).count v = rest.count v := by
          simp [List.count_cons, hv]
        rw [hc] at hd
        exact hd
    have hnbids2 : ∀ v ∈ rest, v ∈ nodeIds :=
      fun v hv => hnbids v (List.mem_cons_of_mem _ hv)
    have hedge2 : ∀ v ∈ rest, ∃ e ∈ edges, e.source = current ∧ e.target = v :=
      fun v hv => hedge v (List.mem_cons_of_mem _ hv)
    simp only [processNeighbors]
    by_cases hpush : deg nb - 1 = 0
    · rw [if_pos hpush]
      have hnbord : nb ∉ order0 ++ [current] := by
        obtain ⟨e, he, hsrc, htgt⟩ := hedge nb (List.mem_cons_self _ _)
        intro hmem
        obtain ⟨hsm, hidx⟩ := hI4 e he (by rw [htgt]; exact hmem)
        rw [hsrc, htgt] at hidx
        have hidxc : (order0 ++ [current]).indexOf current = order0.length := by
          rw [List.indexOf_append_of_not_mem hcur]
          simp
        rcases List.mem_append.mp hmem with hmo | hmc
        · have hnb_idx : (order0 ++ [current]).indexOf nb = order0.indexOf nb :=
            List.indexOf_append_of_mem hmo
          have hlt : order0.indexOf nb < order0.length :=
            List.indexOf_lt_length.mpr hmo
          omega
        · have : nb = current := by simpa using hmc
          rw [this, hidxc] at hidx
          omega
      have hq0N : ∀ v ∈ queue ++ [nb],
          (fun k => if k = nb then deg nb - 1 else deg k) v = 0 := by
        intro v hv
        dsimp only
        rcases List.mem_append.mp hv with hq | hb
        · have hvne : v ≠ nb := fun hvv => hnbq (hvv ▸ hq)
          rw [if_neg hvne]
          exact hq0 v hq
        · have hvb : v = nb := by simpa using hb
          rw [if_pos hvb]
          exact hpush
      have hNN : ((order0 ++ [current]) ++ (queue ++ [nb])).Nodup := by
        have hnotin : nb ∉ (order0 ++ [current]) ++ queue := by
          intro hx
          rcases List.mem_append.mp hx with h1 | h2
          · exact hnbord h1
          · exact hnbq h2
        have := nodup_append_singleton hN hnotin
        rwa [List.append_assoc] at this
      have hqidsN : ∀ v ∈ queue ++ [nb], v ∈ nodeIds := by
        intro v hv
        rcases List.mem_append.mp hv with hq | hb
        · exact hqids v hq
        · have hvb : v = nb := by simpa using hb
          rw [hvb]
          exact hnbids nb (List.mem_cons_self _ _)
      exact ih _ _ hdegN hq0N hNN hqidsN hnbids2 hedge2
    · rw [if_neg hpush]
      have hq0N : ∀ v ∈ queue,
          (fun k => if k = nb then deg nb - 1 else deg k) v = 0 := by
        intro v hv
        dsimp only
        have hvne : v ≠ nb := fun hvv => hnbq (hvv ▸ hv)
        rw [if_neg hvne]
        exact hq0 v hv
      exact ih _ _ hdegN hq0N hN hqids hnbids2 hedge2

end Validations
end FlowSync

namespace FlowSync
namespace Validations

lemma kahnLoop_spec (edges : List WorkflowEdge) (nodeIds : List String)
    (hTargets : ∀ e ∈ edges, e.target ∈ nodeIds) :
    ∀ (fuel : Nat) (deg : String → Int) (queue order : List String),
      (∀ v, deg v = (cntOutside edges order v : Int)) →
      (∀ v ∈ queue, deg v = 0) →
      ((order ++ queue).Nodup) →
      (∀ v ∈ order, v ∈ nodeIds) →
      (∀ v ∈ queue, v ∈ nodeIds) →
      (∀ e ∈ edges, e.target ∈ order → e.source ∈ order
        ∧ order.indexOf e.source < order.indexOf e.target) →
      (kahnLoop (buildAdjacency edges) fuel deg queue order).Nodup
      ∧ (∀ v ∈ kahnLoop (buildAdjacency edges) fuel deg queue order, v ∈ nodeIds)
      ∧ (∀ e ∈ edges,
          e.target ∈ kahnLoop (buildAdjacency edges) fuel deg queue order →
            e.source ∈ kahnLoop (buildAdjacency edges) fuel deg queue order
            ∧ (kahnLoop (buildAdjacency edges) fuel deg queue order).indexOf e.source
                < (kahnLoop (buildAdjacency edges) fuel deg queue order).indexOf e.target) := by
  intro fuel
  induction fuel with
  | zero =>
    intro deg queue order h1 h2 h3 h4 h5 h6
    simp only [kahnLoop]
    exact ⟨(List.nodup_append.mp h3).1, h4, h6⟩
  | succ f ih =>
    intro deg queue order h1 h2 h3 h4 h5 h6
    cases queue with
    | nil =>
      simp only [kahnLoop]
      exact ⟨by simpa using h3, h4, h6⟩
    | cons current rest =>
      simp only [kahnLoop]
      have h3' : ((order ++ [current]) ++ rest).Nodup := by
        rw [List.append_assoc, List.singleton_append]
        exact h3
      obtain ⟨ho, hcr, hdisj⟩ := List.nodup_append.mp h3
      have hcur : current ∉ order := fun hx => hdisj hx (List.mem_cons_self _ _)
      have hdegcur : deg current = 0 := h2 current (List.mem_cons_self _ _)
      have hcnt0 : cntOutside edges order current = 0 := by
        have hc : (cntOutside edges order current : Int) = 0 := by
          rw [← h1 current]; exact hdegcur
        exact_mod_cast hc
      have hsrc_in : ∀ e ∈ edges, e.target = current → e.source ∈ order := by
        intro e he htgt
        by_contra hns
        have hmem : e ∈ edges.filter (fun e => e.target = current ∧ e.source ∉ order) :=
          List.mem_filter.mpr ⟨he, by simp [htgt, hns]⟩
        have hnil : edges.filter (fun e => e.target = current ∧ e.source ∉ order) = [] := by
          apply List.length_eq_zero.mp
          simpa [cntOutside] using hcnt0
        rw [hnil] at hmem
        exact absurd hmem (List.not_mem_nil e)
      have hI4' : ∀ e ∈ edges, e.target ∈ order ++ [current] →
          e.source ∈ order ++ [current]
            ∧ (order ++ [current]).indexOf e.source
                < (order ++ [current]).indexOf e.target := by
        intro e he hmem
        rcases List.mem_append.mp hmem with hto | htc
        · obtain ⟨hs, hidx⟩ := h6 e he hto
          refine ⟨List.mem_append_left _ hs, ?_⟩
          rw [List.indexOf_append_of_mem hs, List.indexOf_append_of_mem hto]
          exact hidx
        · have htgt : e.target = current := by simpa using htc
          have hs := hsrc_in e he htgt
          refine ⟨List.mem_append_left _ hs, ?_⟩
          rw [List.indexOf_append_of_mem hs, htgt,
            List.indexOf_append_of_not_mem hcur]
          have hlt : order.indexOf e.source < order.length :=
            List.indexOf_lt_length.mpr hs
          simp only [List.indexOf_cons_self]
          omega
      have hbase : ∀ v, deg v = (cntOutside edges (order ++ [current]) v : Int)
          + (((buildAdjacency edges) current).count v : Int) := by
        intro v
        rw [h1 v, cntOutside_split edges order current v hcur, count_adj]
        push_cast
        ring
      have hq0r : ∀ v ∈ rest, deg v = 0 :=
        fun v hv => h2 v (List.mem_cons_of_mem _ hv)
      have hqidsr : ∀ v ∈ rest, v ∈ nodeIds :=
        fun v hv => h5 v (List.mem_cons_of_mem _ hv)
      have hnbids : ∀ v ∈ (buildAdjacency edges) current, v ∈ nodeIds := by
        intro v hv
        rw [buildAdjacency_eq] at hv
        obtain ⟨e, hef, rfl⟩ := List.mem_map.mp hv
        exact hTargets e (List.mem_filter.mp hef).1
      have hedge : ∀ v ∈ (buildAdjacency edges) current,
          ∃ e ∈ edges, e.source = current ∧ e.target = v := by
        intro v hv
        rw [buildAdjacency_eq] at hv
        obtain ⟨e, hef, rfl⟩ := List.mem_map.mp hv
        obtain ⟨hee, hsrc⟩ := List.mem_filter.mp hef
        exact ⟨e, hee, by simpa using hsrc, rfl⟩
      obtain ⟨p1, p2, p3, p4⟩ :=
        processNeighbors_spec edges nodeIds order current hcur hI4'
          ((buildAdjacency edges) current) deg rest hbase hq0r h3' hqidsr hnbids hedge
      have h4' : ∀ v ∈ order ++ [current], v ∈ nodeIds := by
        intro v hv
        rcases List.mem_append.mp hv with h | h
        · exact h4 v h
        · rw [show v = current by simpa using h]
          exact h5 current (List.mem_cons_self _ _)
      exact ih _ _ _ p1 p2 p3 h4' p4 hI4'

end Validations
end FlowSync

namespace FlowSync
namespace Validations

/- ═══════════════════ BFS phase: soundness lemmas (C5) ═══════════════════ -/

lemma visitNeighbors_spec (P : String → Prop) :
    ∀ (nbs reach queue : List String),
      (∀ v ∈ reach, P v) → (∀ v ∈ queue, v ∈ reach) → (∀ v ∈ nbs, P v) →
      (∀ v ∈ (visitNeighbors reach queue nbs).1, P v)
      ∧ (∀ v ∈ (visitNeighbors reach queue nbs).2,
          v ∈ (visitNeighbors reach queue nbs).1) := by
  intro nbs
  induction nbs with
  | nil => intro reach queue h1 h2 _; exact ⟨h1, h2⟩
  | cons nb rest ih =>
    intro reach queue h1 h2 h3
    rw [visitNeighbors]
    by_cases hc : reach.contains nb = true
    · rw [if_pos hc]
      exact ih reach queue h1 h2 (fun v hv => h3 v (List.mem_cons_of_mem _ hv))
    · rw [if_neg hc]
      refine ih (reach ++ [nb]) (queue ++ [nb]) ?_ ?_
        (fun v hv => h3 v (List.mem_cons_of_mem _ hv))
      · intro v hv
        rcases List.mem_append.mp hv with h | h
        · exact h1 v h
        · rw [show v = nb by simpa using h]
          exact h3 nb (List.mem_cons_self _ _)
      · intro v hv
        rcases List.mem_append.mp hv with h | h
        · exact List.mem_append_left _ (h2 v h)
        · exact List.mem_append_right _ h

lemma bfsLoop_spec (edges : List WorkflowEdge) (P : String → Prop)
    (hstep : ∀ u v, P u → (∃ e ∈ edges, e.source = u ∧ e.target = v) → P v) :
    ∀ (fuel : Nat) (reach queue : List String),
      (∀ v ∈ reach, P v) → (∀ v ∈ queue, v ∈ reach) →
      ∀ v ∈ bfsLoop (buildAdjacency edges) fuel reach queue, P v := by
  intro fuel
  induction fuel with
  | zero =>
    intro reach queue h1 _ v hv
    exact h1 v (by simpa [bfsLoop] using hv)
  | succ f ih =>
    intro reach queue h1 h2
    cases queue with
    | nil =>
      intro v hv
      exact h1 v (by simpa [bfsLoop] using hv)
    | cons current rest =>
      simp only [bfsLoop]
      have hPc : P current := h1 current (h2 current (List.mem_cons_self _ _))
      have h3 : ∀ v ∈ (buildAdjacency edges) current, P v := by
        intro v hv
        rw [buildAdjacency_eq] at hv
        obtain ⟨e, hef, rfl⟩ := List.mem_map.mp hv
        obtain ⟨hee, hsrc⟩ := List.mem_filter.mp hef
        exact hstep current e.target hPc ⟨e, hee, by simpa using hsrc, rfl⟩
      have hrest : ∀ v ∈ rest, v ∈ reach :=
        fun v hv => h2 v (List.mem_cons_of_mem _ hv)
      obtain ⟨q1, q2⟩ :=
        visitNeighbors_spec P ((buildAdjacency edges) current) reach rest h1 hrest h3
      exact ih _ _ q1 q2

/- ═══════════════════ Error-block extraction lemmas (C5) ═══════════════════ -/

lemma findDupErrors_nil (msg : String) :
    ∀ (l seen : List String), findDupErrors msg seen l = [] →
      (∀ x ∈ l, x ∉ seen) ∧ l.Nodup := by
  intro l
  induction l with
  | nil => intro seen _; exact ⟨by simp, List.nodup_nil⟩
  | cons x rest ih =>
    intro seen h
    rw [findDupErrors] at h
    by_cases hx : seen.contains x = true
    · rw [if_pos hx] at h
      exact absurd h (by simp)
    · rw [if_neg hx] at h
      obtain ⟨h1, h2⟩ := ih (x :: seen) h
      have hxs : x ∉ seen := by
        intro hin
        exact hx (by simpa using hin)
      refine ⟨?_, ?_⟩
      · intro y hy
        rcases List.mem_cons.mp hy with rfl | hyr
        · exact hxs
        · intro hysn
          exact (h1 y hyr) (List.mem_cons_of_mem _ hysn)
      · refine List.nodup_cons.mpr ⟨?_, h2⟩
        intro hxr
        exact (h1 x hxr) (List.mem_cons_self _ _)

lemma startEndErrors_nil (nodes : List WorkflowNode)
    (h : startEndErrors nodes = []) :
    (nodes.filter (fun n => n.type = "start")).length = 1 := by
  simp only [startEndErrors] at h
  rcases List.append_eq_nil.mp h with ⟨h1, _⟩
  by_cases c0 : (nodes.filter (fun n => n.type = "start")).length = 0
  · rw [if_pos c0] at h1
    exact absurd h1 (by simp)
  · rw [if_neg c0] at h1
    by_cases c1 : (nodes.filter (fun n => n.type = "start")).length > 1
    · rw [if_pos c1] at h1
      exact absurd h1 (by simp)
    · omega

lemma edgeRefErrors_nil (nodeIds : List String) :
    ∀ (edges : List WorkflowEdge), edgeRefErrors nodeIds edges = [] →
      ∀ e ∈ edges, e.source ∈ nodeIds ∧ e.target ∈ nodeIds := by
  intro edges
  induction edges with
  | nil => intro _ e he; exact absurd he (List.not_mem_nil e)
  | cons e0 rest ih =>
    intro h e he
    rw [edgeRefErrors] at h
    rcases List.append_eq_nil.mp h with ⟨h', hrest⟩
    rcases List.append_eq_nil.mp h' with ⟨hs, ht⟩
    rcases List.mem_cons.mp he with rfl | her
    · constructor
      · by_cases hc : nodeIds.contains e.source = true
        · simpa using hc
        · rw [if_neg hc] at hs
          exact absurd hs (by simp)
      · by_cases hc : nodeIds.contains e.target = true
        · simpa using hc
        · rw [if_neg hc] at ht
          exact absurd ht (by simp)
    · exact ih hrest e her

lemma validateDAG_valid_parts (D : WorkflowDefinition)
    (h : (validateDAG D).valid = true) :
    structuralErrors D = [] ∧ cycleErrors D = [] ∧ reachErrors D = [] := by
  unfold validateDAG at h
  by_cases h0 : D.nodes.isEmpty = true
  · rw [if_pos h0] at h
    exact absurd h (by simp)
  · rw [if_neg h0] at h
    by_cases hs : (structuralErrors D).isEmpty = true
    · rw [if_pos hs] at h
      have he : (cycleErrors D ++ (reachErrors D ++ forkJoinErrors D)) = [] := by
        have hh : (cycleErrors D ++ reachErrors D ++ forkJoinErrors D).isEmpty = true := h
        rw [List.isEmpty_iff] at hh
        simpa [List.append_assoc] using hh
      rcases List.append_eq_nil.mp he with ⟨hc, he2⟩
      rcases List.append_eq_nil.mp he2 with ⟨hr, _⟩
      exact ⟨List.isEmpty_iff.mp hs, hc, hr⟩
    · rw [if_neg hs] at h
      exact absurd h (by simp)

end Validations
end FlowSync

namespace FlowSync
namespace Validations

/-- C5: every definition accepted by validateDAG admits a topological
ordering of its nodes (so the graph is acyclic), and carries a unique
start node from which every node is reachable along the edges. -/
theorem validateDAG_sound (D : WorkflowDefinition)
    (h : (validateDAG D).valid = true) :
    (∃ ord, IsTopoOrder D ord)
    ∧ ∃ s ∈ D.nodes, s.type = "start"
        ∧ (∀ n ∈ D.nodes, n.type = "start" → n = s)
        ∧ ∀ n ∈ D.nodes, ReachableFrom D s.id n.id := by
  obtain ⟨hstruct, hcycle, hreach⟩ := validateDAG_valid_parts D h
  unfold structuralErrors at hstruct
  rcases List.append_eq_nil.mp hstruct with ⟨h123, hER⟩
  rcases List.append_eq_nil.mp h123 with ⟨h12, hSE⟩
  rcases List.append_eq_nil.mp h12 with ⟨hdupN, _⟩
  have hNodup : (D.nodes.map (fun n => n.id)).Nodup :=
    (findDupErrors_nil _ _ _ hdupN).2
  have hEnds := edgeRefErrors_nil _ _ hER
  have hstart1 := startEndErrors_nil _ hSE
  have hlen : (kahnOrder D).length = D.nodes.length := by
    unfold cycleErrors at hcycle
    by_cases hk : (kahnOrder D).length ≠ D.nodes.length
    · rw [if_pos hk] at hcycle
      exact absurd hcycle (by simp)
    · omega
  have hTargets : ∀ e ∈ D.edges, e.target ∈ D.nodes.map (fun n => n.id) :=
    fun e he => (hEnds e he).2
  have init1 : ∀ v, buildInDegree D.edges v = (cntOutside D.edges [] v : Int) := by
    intro v
    rw [buildInDegree_eq, cntOutside_nil]
  have init2 : ∀ v ∈ (D.nodes.map (fun n => n.id)).filter
      (fun i => buildInDegree D.edges i = 0), buildInDegree D.edges v = 0 := by
    intro v hv
    have hm := List.mem_filter.mp hv
    simpa using hm.2
  have init3 : (([] : List String)
      ++ (D.nodes.map (fun n => n.id)).filter
          (fun i => buildInDegree D.edges i = 0)).Nodup := by
    simpa using hNodup.filter _
  have init5 : ∀ v ∈ (D.nodes.map (fun n => n.id)).filter
      (fun i => buildInDegree D.edges i = 0), v ∈ D.nodes.map (fun n => n.id) :=
    fun v hv => (List.mem_filter.mp hv).1
  have hkahn := kahnLoop_spec D.edges (D.nodes.map (fun n => n.id)) hTargets
    (D.nodes.length + D.edges.length + 1) (buildInDegree D.edges)
    ((D.nodes.map (fun n => n.id)).filter (fun i => buildInDegree D.edges i = 0)) []
    init1 init2 init3 (by simp) init5 (by simp)
  have hko : kahnOrder D
      = kahnLoop (buildAdjacency D.edges) (D.nodes.length + D.edges.length + 1)
          (buildInDegree D.edges)
          ((D.nodes.map (fun n => n.id)).filter (fun i => buildInDegree D.edges i = 0))
          [] := rfl
  rw [← hko] at hkahn
  obtain ⟨knodup, ksub, ktopo⟩ := hkahn
  have hperm : (kahnOrder D).Perm (D.nodes.map (fun n => n.id)) := by
    have hsub : List.Subperm (kahnOrder D) (D.nodes.map fun n => n.id) :=
      List.subperm_of_subset knodup (fun v hv => ksub v hv)
    apply hsub.perm_of_length_le
    rw [hlen, List.length_map]
  refine ⟨⟨kahnOrder D, hperm, ?_⟩, ?_⟩
  · intro e he
    have htin : e.target ∈ kahnOrder D := hperm.mem_iff.mpr (hTargets e he)
    exact (ktopo e he htin).2
  · obtain ⟨s, hsl⟩ : ∃ s, D.nodes.filter (fun n => n.type = "start") = [s] := by
      cases hl : D.nodes.filter (fun n => n.type = "start") with
      | nil => rw [hl] at hstart1; simp at hstart1
      | cons s tl =>
        cases tl with
        | nil => exact ⟨s, rfl⟩
        | cons b tl2 => rw [hl] at hstart1; simp at hstart1
    have hsmem : s ∈ D.nodes ∧ s.type = "start" := by
      have hsin : s ∈ D.nodes.filter (fun n => n.type = "start") := by
        rw [hsl]; exact List.mem_cons_self _ _
      have hm := List.mem_filter.mp hsin
      exact ⟨hm.1, by simpa using hm.2⟩
    have hreach2 : ∀ n ∈ D.nodes, (bfsReachable D s.id).contains n.id = true := by
      unfold reachErrors at hreach
      rw [hsl] at hreach
      dsimp only at hreach
      rw [if_pos (by simp [hcycle])] at hreach
      intro n hn
      have hnone := (List.filterMap_eq_nil_iff.mp hreach) n hn
      by_contra hc
      rw [if_neg (by simpa using hc)] at hnone
      exact absurd hnone (by simp)
    have hbfs : ∀ v ∈ bfsReachable D s.id, ReachableFrom D s.id v := by
      intro v hv
      refine bfsLoop_spec D.edges (fun v => ReachableFrom D s.id v) ?_ _ _ _ ?_ ?_ v hv
      · intro u w hu hedge
        exact Relation.ReflTransGen.tail hu hedge
      · intro x hx
        rw [show x = s.id by simpa using hx]
        exact Relation.ReflTransGen.refl
      · exact fun x hx => hx
    refine ⟨s, hsmem.1, hsmem.2, ?_, ?_⟩
    · intro n hn hnt
      have hnin : n ∈ D.nodes.filter (fun n => n.type = "start") :=
        List.mem_filter.mpr ⟨hn, by simp [hnt]⟩
      rw [hsl] at hnin
      simpa using hnin
    · intro n hn
      have hc := hreach2 n hn
      have hm : n.id ∈ bfsReachable D s.id := by simpa using hc
      exact hbfs n.id hm

/-- Witness for C5 on the linear start-action-end definition. -/
theorem validateDAG_sound_witness :
    (∃ ord, IsTopoOrder linDef ord)
    ∧ ∃ s ∈ linDef.nodes, s.type = "start"
        ∧ (∀ n ∈ linDef.nodes, n.type = "start" → n = s)
        ∧ ∀ n ∈ linDef.nodes, ReachableFrom linDef s.id n.id :=
  validateDAG_sound linDef (by decide)

end Validations
end FlowSync

namespace FlowSync

/- ═══════════════════ Frame lemmas: the publisher and the skip phase never read or write the workflows and executions tables (C2, C3) ═══════════════════ -/

lemma mapTables_enqueue (st : SysState) (fw : List WorkflowRow → List WorkflowRow)
    (fe : List ExecutionRow → List ExecutionRow) (job : WorkerJob) :
    enqueue job (mapTables st fw fe) = mapTables (enqueue job st) fw fe := by
  cases st
  rfl

lemma mapTables_createSkippedStep (st : SysState)
    (fw : List WorkflowRow → List WorkflowRow)
    (fe : List ExecutionRow → List ExecutionRow)
    (eid : String) (node : WorkflowNode) (now : Nat) :
    createSkippedStep (mapTables st fw fe) eid node now
      = mapTables (createSkippedStep st eid node now) fw fe := by
  cases st
  rfl

lemma mapTables_publishJob (st : SysState)
    (fw : List WorkflowRow → List WorkflowRow)
    (fe : List ExecutionRow → List ExecutionRow)
    (eid : String) (node : WorkflowNode) (input : Option JSValue)
    (prev : List (String × JSValue)) (attempt now : Nat) :
    publishJob (mapTables st fw fe) eid node input prev attempt now
      = (mapTables (publishJob st eid node input prev attempt now).1 fw fe,
         (publishJob st eid node input prev attempt now).2) := by
  cases st
  simp only [publishJob, mapTables, freshId, SysState.depth]
  split <;> first | rfl | (split <;> rfl)

end FlowSync

namespace FlowSync

/-- setExecStatus is the executions-only instance of mapTables. -/
lemma setExecStatus_eq_mapTables (st : SysState) (e σ : String) :
    setExecStatus st e σ
      = mapTables st (fun w => w)
          (fun ex => ex.map (fun x => if x.id = e then { x with status := σ } else x)) := rfl

/-- setWorkflowStatus is the workflows-only instance of mapTables. -/
lemma setWorkflowStatus_eq_mapTables (st : SysState) (w σ : String) :
    setWorkflowStatus st w σ
      = mapTables st
          (fun ws => ws.map (fun x => if x.id = w then { x with status := σ } else x))
          (fun ex => ex) := rfl

lemma setExecStatus_steps (st : SysState) (e σ : String) :
    (setExecStatus st e σ).steps = st.steps := rfl

lemma setExecStatus_workflows (st : SysState) (e σ : String) :
    (setExecStatus st e σ).workflows = st.workflows := rfl

lemma setWorkflowStatus_executions (st : SysState) (w σ : String) :
    (setWorkflowStatus st w σ).executions = st.executions := rfl

lemma setWorkflowStatus_nextId (st : SysState) (w σ : String) :
    (setWorkflowStatus st w σ).nextId = st.nextId := rfl

lemma freshId_setWorkflowStatus (st : SysState) (w σ : String) :
    freshId (setWorkflowStatus st w σ) = freshId st := rfl

/-- Erasing the executions table swallows a status overwrite. -/
lemma eraseExecutions_setExecStatus (st : SysState) (e σ : String) :
    eraseExecutions (setExecStatus st e σ) = eraseExecutions st := by
  cases st
  rfl

end FlowSync

namespace FlowSync

/-- One skipBranch loop body commutes with a workflows/executions
transformation as soon as its descent callback does. -/
lemma mapTables_skipNode (D : WorkflowDefinition) (eid : String)
    (c p : List String) (now : Nat)
    (descend : List String → SysState → SysState)
    (fw : List WorkflowRow → List WorkflowRow)
    (fe : List ExecutionRow → List ExecutionRow)
    (hdesc : ∀ ds st, descend ds (mapTables st fw fe) = mapTables (descend ds st) fw fe)
    (nodeId : String) (st : SysState) :
    skipNode D eid c p now descend nodeId (mapTables st fw fe)
      = mapTables (skipNode D eid c p now descend nodeId st) fw fe := by
  simp only [skipNode]
  split
  · rfl
  · split
    · rfl
    · split
      · rfl
      · rw [mapTables_createSkippedStep, hdesc]

/-- The skipBranch loop commutes with a workflows/executions
transformation as soon as its descent callback does. -/
lemma mapTables_skipList (D : WorkflowDefinition) (eid : String)
    (c p : List String) (now : Nat)
    (descend : List String → SysState → SysState)
    (fw : List WorkflowRow → List WorkflowRow)
    (fe : List ExecutionRow → List ExecutionRow)
    (hdesc : ∀ ds st, descend ds (mapTables st fw fe) = mapTables (descend ds st) fw fe) :
    ∀ (ids : List String) (st : SysState),
    skipList D eid c p now descend ids (mapTables st fw fe)
      = mapTables (skipList D eid c p now descend ids st) fw fe := by
  intro ids
  induction ids with
  | nil => intro st; rfl
  | cons a rest ih =>
    intro st
    simp only [skipList]
    rw [mapTables_skipNode D eid c p now descend fw fe hdesc]
    exact ih _

/-- skipBranch touches only the steps table and the id counter, so it
commutes with any transformation of the workflows and executions
tables. -/
lemma mapTables_skipBranch (D : WorkflowDefinition) (eid : String)
    (c p : List String) (now : Nat) :
    ∀ fuel ids (st : SysState) (fw : List WorkflowRow → List WorkflowRow)
      (fe : List ExecutionRow → List ExecutionRow),
    skipBranch D eid c p now fuel ids (mapTables st fw fe)
      = mapTables (skipBranch D eid c p now fuel ids st) fw fe := by
  intro fuel
  induction fuel with
  | zero =>
    intro ids st fw fe
    exact mapTables_skipList D eid c p now _ fw fe (fun ds st => rfl) ids st
  | succ f ihf =>
    intro ids st fw fe
    exact mapTables_skipList D eid c p now _ fw fe (fun ds st => ihf ds st fw fe) ids st

/-- The per-node job publication fold of advanceDAG and executeWorkflow
commutes with any transformation of the workflows and executions
tables. -/
lemma mapTables_publish_foldl (eid : String) (inp : Option JSValue)
    (prev : List (String × JSValue)) (att now : Nat)
    (fw : List WorkflowRow → List WorkflowRow)
    (fe : List ExecutionRow → List ExecutionRow) :
    ∀ (ns : List WorkflowNode) (st : SysState),
    ns.foldl (fun s node => (publishJob s eid node inp prev att now).1) (mapTables st fw fe)
      = mapTables (ns.foldl (fun s node => (publishJob s eid node inp prev att now).1) st) fw fe := by
  intro ns
  induction ns with
  | nil => intro st; rfl
  | cons n rest ih =>
    intro st
    simp only [List.foldl_cons]
    rw [mapTables_publishJob]
    exact ih _

/-- skipBranch never reads or writes an execution row, so it commutes
with an execution status overwrite. -/
lemma skipBranch_setExecStatus (D : WorkflowDefinition) (eid : String)
    (c p : List String) (now fuel : Nat) (ids : List String) (st : SysState)
    (e σ : String) :
    skipBranch D eid c p now fuel ids (setExecStatus st e σ)
      = setExecStatus (skipBranch D eid c p now fuel ids st) e σ := by
  rw [setExecStatus_eq_mapTables, mapTables_skipBranch, ← setExecStatus_eq_mapTables]

/-- The job publication fold never reads or writes an execution row, so
it commutes with an execution status overwrite. -/
lemma publish_foldl_setExecStatus (ns : List WorkflowNode) (eid : String)
    (inp : Option JSValue) (prev : List (String × JSValue)) (att now : Nat)
    (st : SysState) (e σ : String) :
    ns.foldl (fun s node => (publishJob s eid node inp prev att now).1) (setExecStatus st e σ)
      = setExecStatus (ns.foldl (fun s node => (publishJob s eid node inp prev att now).1) st) e σ := by
  rw [setExecStatus_eq_mapTables, mapTables_publish_foldl, ← setExecStatus_eq_mapTables]

/-- The job publication fold never reads or writes a workflow row, so
it commutes with a workflow status overwrite. -/
lemma publish_foldl_setWorkflowStatus (ns : List WorkflowNode) (eid : String)
    (inp : Option JSValue) (prev : List (String × JSValue)) (att now : Nat)
    (st : SysState) (w σ : String) :
    ns.foldl (fun s node => (publishJob s eid node inp prev att now).1) (setWorkflowStatus st w σ)
      = setWorkflowStatus (ns.foldl (fun s node => (publishJob s eid node inp prev att now).1) st) w σ := by
  rw [setWorkflowStatus_eq_mapTables, mapTables_publish_foldl, ← setWorkflowStatus_eq_mapTables]

end FlowSync

namespace FlowSync

/-- The step-row update of handleResult ignores the executions table, so
it commutes with an execution status overwrite. -/
lemma updateStepRow_setExecStatus (st : SysState) (r : WorkerResult)
    (now : Nat) (e σ : String) :
    updateStepRow (setExecStatus st e σ) r now
      = Option.map (fun s => setExecStatus s e σ) (updateStepRow st r now) := by
  cases st
  simp only [updateStepRow, setExecStatus]
  split <;> rfl

/-- An execution status overwrite preserves row ids, hence the
row-existence test of the failed branch. -/
lemma any_map_status (l : List ExecutionRow) (eid σ : String) :
    (l.map (fun x => if x.id = eid then { x with status := σ } else x)).any
        (fun x => x.id = eid)
      = l.any (fun x => x.id = eid) := by
  induction l with
  | nil => rfl
  | cons a rest ih =>
    cases a with
    | mk aid awf ast ain aout auid acat =>
      by_cases h : aid = eid
      · simp [h]
      · simp [h, ih]

/-- An execution status overwrite preserves row ids, so find? locates
the same row, with only its status rewritten. -/
lemma find_map_status (l : List ExecutionRow) (eid σ : String) :
    (l.map (fun x => if x.id = eid then { x with status := σ } else x)).find?
        (fun x => x.id = eid)
      = Option.map (fun (x : ExecutionRow) => { x with status := σ })
          (l.find? (fun x => x.id = eid)) := by
  induction l with
  | nil => rfl
  | cons a rest ih =>
    cases a with
    | mk aid awf ast ain aout auid acat =>
      by_cases h : aid = eid
      · simp [List.find?_cons, h]
      · simp [List.find?_cons, h, ih]

lemma find_exec_setExecStatus (st : SysState) (eid σ : String) :
    (setExecStatus st eid σ).executions.find? (fun x => x.id = eid)
      = Option.map (fun (x : ExecutionRow) => { x with status := σ })
          (st.executions.find? (fun x => x.id = eid)) := by
  cases st
  exact find_map_status _ _ _

/-- The failed branch of handleResult overwrites the execution status
unconditionally, so a prior status overwrite at the same execution is
absorbed. -/
lemma failExecutionPath_setExecStatus (st : SysState) (r : WorkerResult)
    (σ : String) (now : Nat) :
    failExecutionPath (setExecStatus st r.executionId σ) r now
      = failExecutionPath st r now := by
  cases st
  simp only [failExecutionPath, setExecStatus]
  rw [any_map_status]
  split
  · congr 1
    congr 1
    rw [List.map_map]
    apply List.map_congr_left
    intro x _
    cases x with
    | mk xid xwf xst xin xout xuid xcat =>
      by_cases h : xid = r.executionId
      · simp [Function.comp, h]
      · simp [Function.comp, h]
  · rfl

/-- Completing an execution overwrites its status unconditionally, so a
prior status overwrite at the same execution is absorbed. -/
lemma completeExecution_setExecStatus (st : SysState) (r : WorkerResult)
    (prev : List (String × JSValue)) (now : Nat) (σ : String) :
    completeExecution (setExecStatus st r.executionId σ) r prev now
      = completeExecution st r prev now := by
  cases st
  simp only [completeExecution, setExecStatus]
  congr 1
  rw [List.map_map]
  apply List.map_congr_left
  intro x _
  cases x with
  | mk xid xwf xst xin xout xuid xcat =>
    by_cases h : xid = r.executionId
    · simp [Function.comp, h]
    · simp [Function.comp, h]

end FlowSync

namespace FlowSync

/-- The DAG advancement of handleResult reads the execution row only
through its input (passed separately); an execution status overwrite
can change the final state only inside the executions table itself. -/
lemma advanceDAG_setExecStatus (st : SysState) (r : WorkerResult)
    (inp : Option JSValue) (D : WorkflowDefinition) (now : Nat) (σ : String) :
    eraseExecutions (advanceDAG (setExecStatus st r.executionId σ) r inp D now)
      = eraseExecutions (advanceDAG st r inp D now) := by
  simp only [advanceDAG, setExecStatus_steps]
  rw [skipBranch_setExecStatus]
  rw [← apply_ite (fun s => setExecStatus s r.executionId σ)]
  simp only [setExecStatus_steps]
  rw [publish_foldl_setExecStatus, completeExecution_setExecStatus]
  split_ifs <;> rfl

end FlowSync

namespace FlowSync

/-- C2 (amended): handleResult never reads the parent execution status.
Overwriting that status with an arbitrary value before delivering the
result changes nothing outside the executions table (the same jobs are
published, the same steps, queue rows, DLQ entries and events are
written, and the call returns none in exactly the same cases), and for
a failed result the outcome is literally identical, because the failed
branch overwrites the execution status unconditionally. In particular
a cancelled execution is advanced exactly as a running one. -/
theorem handleResult_ignores_execution_status (st : SysState) (r : WorkerResult)
    (σ : String) (now : Nat) :
    Option.map eraseExecutions (handleResult (setExecStatus st r.executionId σ) r now)
      = Option.map eraseExecutions (handleResult st r now)
    ∧ (r.status = "failed" →
        handleResult (setExecStatus st r.executionId σ) r now = handleResult st r now) := by
  constructor
  · simp only [handleResult]
    rw [updateStepRow_setExecStatus]
    cases hup : updateStepRow st r now with
    | none => rfl
    | some st1 =>
      dsimp only [Option.map]
      by_cases hf : r.status = "failed"
      · simp only [if_pos hf]
        rw [failExecutionPath_setExecStatus]
      · simp only [if_neg hf]
        rw [find_exec_setExecStatus]
        cases hfind : st1.executions.find? (fun e => e.id = r.executionId) with
        | none => rfl
        | some ex =>
          dsimp only [Option.map]
          cases ex with
          | mk exid exwf exst exin exout exuid excat =>
            dsimp only
            rw [setExecStatus_workflows]
            cases hw : st1.workflows.find? (fun w => w.id = exwf) with
            | none => rfl
            | some wf =>
              dsimp only [Option.map]
              exact congrArg some (advanceDAG_setExecStatus st1 r exin wf.definitionJson now σ)
  · intro hf
    simp only [handleResult]
    rw [updateStepRow_setExecStatus]
    cases hup : updateStepRow st r now with
    | none => rfl
    | some st1 =>
      dsimp only [Option.map]
      simp only [if_pos hf]
      exact failExecutionPath_setExecStatus st1 r σ now

/-- Witness for C2: delivering the failed result for step sA to the
cancelled execution e1 gives literally the same outcome as delivering
it after the execution status was overwritten. -/
theorem handleResult_ignores_execution_status_witness :
    handleResult (setExecStatus cancelledState failedAResult.executionId "paused")
        failedAResult 7
      = handleResult cancelledState failedAResult 7 :=
  (handleResult_ignores_execution_status cancelledState failedAResult "paused" 7).2 rfl

end FlowSync

namespace FlowSync

lemma setWorkflowStatus_workflows (st : SysState) (w σ : String) :
    (setWorkflowStatus st w σ).workflows
      = st.workflows.map (fun x => if x.id = w then { x with status := σ } else x) := rfl

/-- A workflow status overwrite preserves row ids, so find? locates the
same workflow, with only its status rewritten. -/
lemma find_map_wstatus (l : List WorkflowRow) (wid σ : String) :
    (l.map (fun x => if x.id = wid then { x with status := σ } else x)).find?
        (fun x => x.id = wid)
      = Option.map (fun (x : WorkflowRow) => { x with status := σ })
          (l.find? (fun x => x.id = wid)) := by
  induction l with
  | nil => rfl
  | cons a rest ih =>
    cases a with
    | mk aid anm ast adef =>
      by_cases h : aid = wid
      · simp [List.find?_cons, h]
      · simp [List.find?_cons, h, ih]

/-- publishJob never writes the executions table. -/
lemma publishJob_executions (st : SysState) (eid : String) (node : WorkflowNode)
    (inp : Option JSValue) (prev : List (String × JSValue)) (att now : Nat) :
    ((publishJob st eid node inp prev att now).1).executions = st.executions := by
  cases st
  simp only [publishJob, freshId, SysState.depth]
  split <;> first | rfl | (split <;> rfl)

/-- The per-node job publication fold never writes the executions
table. -/
lemma publish_foldl_executions (eid : String) (inp : Option JSValue)
    (prev : List (String × JSValue)) (att now : Nat) :
    ∀ (ns : List WorkflowNode) (st : SysState),
    (ns.foldl (fun s node => (publishJob s eid node inp prev att now).1) st).executions
      = st.executions := by
  intro ns
  induction ns with
  | nil => intro st; rfl
  | cons n rest ih =>
    intro st
    simp only [List.foldl_cons]
    rw [ih, publishJob_executions]

end FlowSync

namespace FlowSync

/-- C3 (amended): executeWorkflow rejects a missing workflow id with the
not-found error, but performs no status check at all: overwriting the
stored workflow status with an arbitrary value changes nothing in the
outcome beyond that stored row itself, and for any stored workflow -
whatever its status - the call succeeds, returning the fresh execution
id and a state whose executions table holds the new row for this
workflow, created running (or completed immediately when the
definition has no initial node). -/
theorem executeWorkflow_no_status_check (st : SysState) (wid : String)
    (input : Option JSValue) (userId : Option String) (now : Nat) (σ : String) :
    (st.workflows.find? (fun w => w.id = wid) = none →
      executeWorkflow st wid input userId now
        = .error ("Workflow " ++ wid ++ " not found"))
    ∧ executeWorkflow (setWorkflowStatus st wid σ) wid input userId now
        = (executeWorkflow st wid input userId now).map
            (fun p => (setWorkflowStatus p.1 wid σ, p.2))
    ∧ (∀ w, st.workflows.find? (fun x => x.id = wid) = some w →
        ∃ st2, executeWorkflow st wid input userId now = .ok (st2, freshId st)
          ∧ ∃ e ∈ st2.executions, e.id = freshId st ∧ e.workflowId = wid
              ∧ (e.status = "running" ∨ e.status = "completed")) := by
  refine ⟨?_, ?_, ?_⟩
  · intro hnone
    simp only [executeWorkflow]
    rw [hnone]
  · simp only [executeWorkflow]
    rw [setWorkflowStatus_workflows, find_map_wstatus]
    cases hfw : st.workflows.find? (fun w => w.id = wid) with
    | none => rfl
    | some w =>
      cases w with
      | mk wId wName wStatus wDef =>
        dsimp only [Option.map]
        rw [freshId_setWorkflowStatus]
        split <;> rename_i hinit
        · rfl
        · exact congrArg (fun s => Except.ok (s, freshId st))
            (publish_foldl_setWorkflowStatus
              (wDef.nodes.filter (fun (n : WorkflowNode) =>
                ¬ (wDef.edges.map (fun (ed : WorkflowEdge) => ed.target)).contains n.id))
              (freshId st) input [] 1 now
              { st with
                  executions := st.executions ++ [⟨freshId st, wid, "running", input, none, userId, none⟩],
                  nextId := st.nextId + 1 }
              wid σ)
  · intro w hw
    cases w with
    | mk wId wName wStatus wDef =>
      simp only [executeWorkflow]
      rw [hw]
      dsimp only
      split <;> rename_i hinit
      · refine ⟨_, rfl, ?_⟩
        refine ⟨{ id := freshId st, workflowId := wid, status := "completed",
                  input := input, output := some (.obj []), userId := userId,
                  completedAt := some now }, ?_, rfl, rfl, Or.inr rfl⟩
        apply List.mem_map.mpr
        refine ⟨{ id := freshId st, workflowId := wid, status := "running",
                  input := input, output := none, userId := userId,
                  completedAt := none }, ?_, ?_⟩
        · exact List.mem_append_right _ (List.mem_singleton_self _)
        · simp
      · refine ⟨_, rfl, ?_⟩
        rw [publish_foldl_executions]
        refine ⟨{ id := freshId st, workflowId := wid, status := "running",
                  input := input, output := none, userId := userId,
                  completedAt := none }, ?_, rfl, rfl, Or.inl rfl⟩
        exact List.mem_append_right _ (List.mem_singleton_self _)

/-- Witness for C3: the stored workflow w1 is in status draft, yet
executeWorkflow succeeds on it and creates its execution row. -/
theorem executeWorkflow_no_status_check_witness :
    ∃ st2, executeWorkflow draftState "w1" none none 5 = .ok (st2, freshId draftState)
      ∧ ∃ e ∈ st2.executions, e.id = freshId draftState ∧ e.workflowId = "w1"
          ∧ (e.status = "running" ∨ e.status = "completed") :=
  (executeWorkflow_no_status_check draftState "w1" none none 5 "x").2.2
    { id := "w1", name := "wf", status := "draft", definitionJson := linDef } rfl

end FlowSync
